import Mathlib

/-!
# army-knife: the sign-in command (`cmd/main.go`)

A shallow embedding of `signInWithPassword` and `main` together with the parts of the Go
standard library they call (`encoding/json`, `net/url`, `net/http`, `unicode/utf8`),
followed by the properties of the sign-in exchange.

Conventions of the embedding:

* a Go `string` or `[]byte` is a list of bytes (`Bytes`); a Go string need not be valid UTF-8;
* a Go `(T, error)` result is a pair whose second component is `none` for a nil error;
* the network is a parameter: `Env.Do` answers the request that `http.Client.Do` is given;
* `json.Unmarshal` is split into a parser producing a JSON value (`jsonParse`) and the
  stores into the Go structs of `main.go`; Go validates the whole input before it stores
  anything, so the split does not change results.
-/

namespace ArmyKnife

set_option maxRecDepth 100000

/-! ## Bytes -/

/-- One byte. -/
abbrev Byte := Fin 256

/-- Go `string` and `[]byte`. -/
abbrev Bytes := List Byte

/-- Conversion `byte(n)` of a non-negative integer. -/
def byte (n : Nat) : Byte := ⟨n % 256, Nat.mod_lt n (by decide)⟩

/-- Byte of an ASCII character literal. -/
def ch (c : Char) : Byte := byte c.toNat

/-- Bytes of an ASCII string literal. -/
def ascii (s : String) : Bytes := s.data.map ch

/-- Go `strings.HasPrefix`. -/
def startsWith (s p : Bytes) : Bool :=
  match p, s with
  | [], _ => true
  | _ :: _, [] => false
  | q :: ps, c :: t => c = q && startsWith t ps
termination_by structural p

/-- Go `strings.Cut(s, sep)` for a one-byte separator: the text before the first `sep`
and the text after it (`none` when `sep` does not occur). -/
def cutByte (sep : Byte) : Bytes → Bytes × Option Bytes
  | [] => ([], none)
  | c :: s =>
    if c = sep then ([], some s)
    else ((c :: (cutByte sep s).1), (cutByte sep s).2)

/-- Lexicographic order on byte strings (Go `<=` on strings). -/
def bytesLe : Bytes → Bytes → Bool
  | [], _ => true
  | _ :: _, [] => false
  | a :: s, b :: t => a.val < b.val || (a = b && bytesLe s t)

/-! ## net/url -/

/-- The escaping modes of `net/url` that the request construction goes through. -/
inductive encoding
  | encodePath
  | encodeHost
  | encodeQueryComponent
  deriving DecidableEq, Repr

/-- Letters and digits: `'a' <= c && c <= 'z' || 'A' <= c && c <= 'Z' || '0' <= c && c <= '9'`. -/
def isAlnum (c : Byte) : Bool :=
  (ch 'a' ≤ c && c ≤ ch 'z') || (ch 'A' ≤ c && c ≤ ch 'Z') || (ch '0' ≤ c && c ≤ ch '9')

/-- Go `url.shouldEscape`. -/
def shouldEscape (c : Byte) (mode : encoding) : Bool :=
  if isAlnum c then false
  else if mode = encoding.encodeHost && (ascii "!$&'()*+,;=:[]<>\"").contains c then false
  else if (ascii "-_.~").contains c then false
  else if (ascii "$&+,/:;=?@").contains c then
    match mode with
    | encoding.encodePath => c = ch ';' || c = ch ',' || c = ch '?'
    | encoding.encodeQueryComponent => true
    | encoding.encodeHost => true
  else true

/-- Go `upperhex[n]`. -/
def upperhex (n : Nat) : Byte := (ascii "0123456789ABCDEF").getD n 0

/-- Go `url.escape`. -/
def escape (s : Bytes) (mode : encoding) : Bytes :=
  match s with
  | [] => []
  | c :: t =>
    if c = ch ' ' && mode = encoding.encodeQueryComponent then ch '+' :: escape t mode
    else if shouldEscape c mode then
      ch '%' :: upperhex (c.val / 16) :: upperhex (c.val % 16) :: escape t mode
    else c :: escape t mode

/-- Go `url.QueryEscape`. -/
def QueryEscape (s : Bytes) : Bytes := escape s encoding.encodeQueryComponent

/-- Go `url.ishex`. -/
def ishex (c : Byte) : Bool :=
  (ch '0' ≤ c && c ≤ ch '9') || (ch 'a' ≤ c && c ≤ ch 'f') || (ch 'A' ≤ c && c ≤ ch 'F')

/-- Go `url.unhex`. -/
def unhex (c : Byte) : Nat :=
  if ch '0' ≤ c && c ≤ ch '9' then c.val - 48
  else if ch 'a' ≤ c && c ≤ ch 'f' then c.val - 97 + 10
  else if ch 'A' ≤ c && c ≤ ch 'F' then c.val - 65 + 10
  else 0

/-- Go `url.QueryUnescape` (`unescape` in mode `encodeQueryComponent`); `none` is the
`EscapeError` for a `%` that is not followed by two hexadecimal digits. -/
def QueryUnescape : Bytes → Option Bytes
  | [] => some []
  | c :: t =>
    if c = ch '%' then
      match t with
      | a :: b :: rest =>
        if ishex a && ishex b then
          (QueryUnescape rest).map (fun r => byte (unhex a * 16 + unhex b) :: r)
        else none
      | _ => none
    else if c = ch '+' then (QueryUnescape t).map (fun r => ch ' ' :: r)
    else (QueryUnescape t).map (fun r => c :: r)

/-- Go `url.Values`, a `map[string][]string`, as an association list with distinct keys. -/
abbrev Values := List (Bytes × List Bytes)

/-- Go `Values.Set`: `v[key] = []string{value}`. -/
def Values.Set (v : Values) (key value : Bytes) : Values :=
  if v.any (fun kv => kv.1 = key) then
    v.map (fun kv => if kv.1 = key then (key, [value]) else kv)
  else v ++ [(key, [value])]

/-- The map update `m[key] = append(m[key], value)`. -/
def Values.append (v : Values) (key value : Bytes) : Values :=
  if v.any (fun kv => kv.1 = key) then
    v.map (fun kv => if kv.1 = key then (key, kv.2 ++ [value]) else kv)
  else v ++ [(key, [value])]

/-- Insertion into a list of map entries ordered by key. -/
def insertByKey (kv : Bytes × List Bytes) : Values → Values
  | [] => [kv]
  | x :: xs => if bytesLe kv.1 x.1 then kv :: x :: xs else x :: insertByKey kv xs

/-- The entries of a map in the order of `slices.Sort(keys)`. -/
def sortByKey : Values → Values
  | [] => []
  | x :: xs => insertByKey x (sortByKey xs)

/-- The pairs `k=v` that `Values.Encode` writes, in order. -/
def encodePairs : Values → List Bytes
  | [] => []
  | (k, vs) :: rest =>
    vs.map (fun v => QueryEscape k ++ ch '=' :: QueryEscape v) ++ encodePairs rest

/-- The pairs joined by `&`. -/
def joinAmp : List Bytes → Bytes
  | [] => []
  | [p] => p
  | p :: q :: rest => p ++ ch '&' :: joinAmp (q :: rest)

/-- Go `Values.Encode`: the `key=value` pairs, keys sorted, joined by `&`. -/
def Values.Encode (v : Values) : Bytes := joinAmp (encodePairs (sortByKey v))

/-- The segments of a query string between `&` separators. -/
def splitAmp (s : Bytes) : List Bytes :=
  match s with
  | [] => []
  | c :: t =>
    if c = ch '&' then [] :: splitAmp t
    else
      match splitAmp t with
      | [] => [[c]]
      | seg :: segs => (c :: seg) :: segs

/-- One iteration of the loop of Go `url.parseQuery` on the segment `seg`: the map and
whether an error has been recorded. -/
def parseQueryStep (st : Values × Bool) (seg : Bytes) : Values × Bool :=
  if seg.contains (ch ';') then (st.1, true)
  else if seg = [] then st
  else
    let kv := cutByte (ch '=') seg
    match QueryUnescape kv.1 with
    | none => (st.1, true)
    | some key =>
      match QueryUnescape (kv.2.getD []) with
      | none => (st.1, true)
      | some value => (st.1.append key value, st.2)

/-- Go `url.ParseQuery`: the decoded parameters and whether an error is returned. -/
def ParseQuery (query : Bytes) : Values × Bool :=
  (splitAmp query).foldl parseQueryStep ([], false)

/-- Go `url.URL`, the fields that `url.Parse` fills for the endpoint. -/
structure URL where
  Scheme : Bytes
  Host : Bytes
  Path : Bytes
  RawQuery : Bytes
  deriving DecidableEq, Repr

/-- Go `URL.Query`: `ParseQuery(u.RawQuery)` with the error dropped. -/
def URL.Query (u : URL) : Values := (ParseQuery u.RawQuery).1

/-- Go `URL.String` for a URL with scheme, host and path, no user info, no opaque part and
no fragment. -/
def URL.String (u : URL) : Bytes :=
  (if u.Scheme ≠ [] then u.Scheme ++ [ch ':'] else []) ++
  (if u.Scheme ≠ [] ∨ u.Host ≠ [] then
    (if u.Host ≠ [] ∨ u.Path ≠ [] then ascii "//" else []) ++
      escape u.Host encoding.encodeHost
   else []) ++
  (if escape u.Path encoding.encodePath ≠ [] ∧
      ¬ startsWith (escape u.Path encoding.encodePath) [ch '/'] ∧ u.Host ≠ []
   then [ch '/'] else []) ++
  escape u.Path encoding.encodePath ++
  (if u.RawQuery ≠ [] then ch '?' :: u.RawQuery else [])

/-- Go `url.getScheme`: the scheme and the rest, `none` for "missing protocol scheme". -/
def getScheme (rawURL : Bytes) : Option (Bytes × Bytes) :=
  go rawURL [] rawURL
where
  /-- The scan of `getScheme`: `seen` holds the bytes before the current one, reversed. -/
  go (rawURL : Bytes) (seen : Bytes) : Bytes → Option (Bytes × Bytes)
    | [] => some ([], rawURL)
    | c :: t =>
      if (ch 'a' ≤ c && c ≤ ch 'z') || (ch 'A' ≤ c && c ≤ ch 'Z') then go rawURL (c :: seen) t
      else if (ch '0' ≤ c && c ≤ ch '9') || c = ch '+' || c = ch '-' || c = ch '.' then
        if seen = [] then some ([], rawURL) else go rawURL (c :: seen) t
      else if c = ch ':' then
        if seen = [] then none else some (seen.reverse, t)
      else some ([], rawURL)

/-- Go `strings.ToLower` on ASCII. -/
def toLowerASCII (s : Bytes) : Bytes :=
  s.map (fun c => if ch 'A' ≤ c && c ≤ ch 'Z' then byte (c.val + 32) else c)

/-- Go `url.Parse`, restricted to the URLs `scheme://host/path[?query]` whose host and path
consist of letters, digits and the bytes `-._~:/`: no user info, no port, no
percent-escape, no fragment. Every other input is answered `none`; the one URL the
program parses is the constant `authAPIEndpoint`, which has the form covered. -/
def urlParse (rawURL : Bytes) : Option URL :=
  if rawURL.any (fun c => c.val < 32 || c.val = 127) then none
  else if rawURL.contains (ch '#') then none
  else
    match getScheme rawURL with
    | none => none
    | some (scheme, rest) =>
      let q := cutByte (ch '?') rest
      if scheme = [] ∨ ¬ startsWith q.1 (ascii "//") then none
      else
        let authority := (cutByte (ch '/') (q.1.drop 2)).1
        let path := q.1.drop (2 + authority.length)
        if authority.all (fun c => isAlnum c || c = ch '-' || c = ch '.') ∧
            path.all (fun c => isAlnum c || (ascii "-._~:/").contains c) ∧
            q.2 ≠ some [] then
          some { Scheme := toLowerASCII scheme, Host := authority, Path := path,
                 RawQuery := q.2.getD [] }
        else none

/-! ## unicode/utf8 and unicode/utf16 -/

/-- Go `utf8.RuneError`, the replacement character U+FFFD. -/
def RuneError : Nat := 0xFFFD

/-- Go `utf8.first`: information about the first byte of a UTF-8 sequence. The value
`0xF0` marks ASCII, `0xF1` an invalid first byte; otherwise the low three bits are the
length of the sequence and the high four bits index `acceptRanges`. -/
def first (s0 : Byte) : Nat :=
  if s0.val < 0x80 then 0xF0
  else if s0.val < 0xC2 then 0xF1
  else if s0.val < 0xE0 then 0x02
  else if s0.val = 0xE0 then 0x13
  else if s0.val < 0xED then 0x03
  else if s0.val = 0xED then 0x23
  else if s0.val < 0xF0 then 0x03
  else if s0.val = 0xF0 then 0x34
  else if s0.val < 0xF4 then 0x04
  else if s0.val = 0xF4 then 0x44
  else 0xF1

/-- Go `utf8.acceptRanges`: the bounds `(lo, hi)` of the second byte. -/
def acceptRanges (i : Nat) : Nat × Nat :=
  match i with
  | 0 => (0x80, 0xBF)
  | 1 => (0xA0, 0xBF)
  | 2 => (0x80, 0x9F)
  | 3 => (0x90, 0xBF)
  | 4 => (0x80, 0x8F)
  | _ => (0, 0)

/-- Go `utf8.DecodeRune` and `utf8.DecodeRuneInString`: the rune at the start of `s` and
its width in bytes; `(RuneError, 1)` for an invalid or truncated encoding. The masks and
shifts of the Go code are written with `%`, `*` and `+` (the or-ed bit fields are disjoint). -/
def decodeRune (s : Bytes) : Nat × Nat :=
  match s with
  | [] => (RuneError, 0)
  | s0 :: t =>
    let x := first s0
    if x ≥ 0xF0 then (if x = 0xF1 then RuneError else s0.val, 1)
    else
      let sz := x % 8
      let accept := acceptRanges (x / 16)
      if s.length < sz then (RuneError, 1)
      else
        match t with
        | [] => (RuneError, 1)
        | s1 :: t1 =>
          if s1.val < accept.1 ∨ accept.2 < s1.val then (RuneError, 1)
          else if sz ≤ 2 then ((s0.val % 32) * 64 + s1.val % 64, 2)
          else
            match t1 with
            | [] => (RuneError, 1)
            | s2 :: t2 =>
              if s2.val < 0x80 ∨ 0xBF < s2.val then (RuneError, 1)
              else if sz ≤ 3 then
                ((s0.val % 16) * 4096 + (s1.val % 64) * 64 + s2.val % 64, 3)
              else
                match t2 with
                | [] => (RuneError, 1)
                | s3 :: _ =>
                  if s3.val < 0x80 ∨ 0xBF < s3.val then (RuneError, 1)
                  else
                    ((s0.val % 8) * 262144 + (s1.val % 64) * 4096 + (s2.val % 64) * 64
                      + s3.val % 64, 4)

/-- Go `utf8.EncodeRune` and `utf8.AppendRune`: the UTF-8 encoding of a rune; surrogates and
values above U+10FFFF are encoded as U+FFFD. -/
def encodeRune (r : Nat) : Bytes :=
  if r ≤ 0x7F then [byte r]
  else if r ≤ 0x7FF then [byte (0xC0 + r / 64), byte (0x80 + r % 64)]
  else if r > 0x10FFFF ∨ (0xD800 ≤ r ∧ r ≤ 0xDFFF) then [0xEF, 0xBF, 0xBD]
  else if r ≤ 0xFFFF then
    [byte (0xE0 + r / 4096), byte (0x80 + r / 64 % 64), byte (0x80 + r % 64)]
  else
    [byte (0xF0 + r / 262144), byte (0x80 + r / 4096 % 64), byte (0x80 + r / 64 % 64),
     byte (0x80 + r % 64)]

/-- Go `utf8.ValidString`, in the form "no position decodes to `(RuneError, 1)`"; the
first argument counts the bytes of the current rune still to be passed over. -/
def validFrom : Nat → Bytes → Bool
  | _, [] => true
  | skip + 1, _ :: t => validFrom skip t
  | 0, c :: t =>
    if decodeRune (c :: t) = (RuneError, 1) then false
    else validFrom ((decodeRune (c :: t)).2 - 1) t

/-- Go `utf8.ValidString`. -/
def ValidString (s : Bytes) : Bool := validFrom 0 s

/-- The coercion to valid UTF-8 that Go `json.Marshal` applies to a string value: every
byte that does not start a well-formed sequence is replaced by U+FFFD, well-formed
sequences are kept. The first argument counts the bytes of the current rune still to be
passed over. -/
def coerceLoop : Nat → Bytes → Bytes
  | _, [] => []
  | skip + 1, _ :: t => coerceLoop skip t
  | 0, c :: t =>
    if decodeRune (c :: t) = (RuneError, 1) then encodeRune RuneError ++ coerceLoop 0 t
    else (c :: t).take (decodeRune (c :: t)).2 ++ coerceLoop ((decodeRune (c :: t)).2 - 1) t

/-- A string coerced to valid UTF-8. -/
def coerceUTF8 (s : Bytes) : Bytes := coerceLoop 0 s

/-- Go `utf16.IsSurrogate`. -/
def utf16IsSurrogate (r : Nat) : Bool := 0xD800 ≤ r && r < 0xE000

/-- Go `utf16.DecodeRune`: the code point of a surrogate pair, U+FFFD when the pair is
not valid. -/
def utf16DecodeRune (r1 r2 : Nat) : Nat :=
  if 0xD800 ≤ r1 ∧ r1 < 0xDC00 ∧ 0xDC00 ≤ r2 ∧ r2 < 0xE000 then
    (r1 - 0xD800) * 1024 + (r2 - 0xDC00) + 0x10000
  else RuneError

/-! ## encoding/json: writing -/

/-- Go `hex[n]` of `encoding/json`. -/
def hex (n : Nat) : Byte := (ascii "0123456789abcdef").getD n 0

/-- Go `htmlSafeSet[b]` for `b < utf8.RuneSelf`: the ASCII bytes that need no escape in a
JSON string embedded in HTML. -/
def htmlSafeSet (b : Byte) : Bool :=
  0x20 ≤ b.val && b.val < 0x80 && !(ascii "\"&<>\\").contains b

/-- The escape written by Go `appendString` for an ASCII byte outside `htmlSafeSet`.
(Go releases before 1.22 write `\u0008` and `\u000c` where later ones write `\b` and
`\f`; the two forms are read back alike.) -/
def escapeASCII (b : Byte) : Bytes :=
  if b = ch '\\' ∨ b = ch '"' then [ch '\\', b]
  else if b.val = 8 then [ch '\\', ch 'b']
  else if b.val = 12 then [ch '\\', ch 'f']
  else if b = ch '\n' then [ch '\\', ch 'n']
  else if b = ch '\r' then [ch '\\', ch 'r']
  else if b = ch '\t' then [ch '\\', ch 't']
  else [ch '\\', ch 'u', ch '0', ch '0', hex (b.val / 16), hex (b.val % 16)]

/-- The loop of Go `appendString` with `escapeHTML` set: the text written between the
quotes. The first argument counts the bytes of the current rune still to be passed
over (Go advances `i` by the width of the rune). -/
def appendStringLoop : Nat → Bytes → Bytes
  | _, [] => []
  | skip + 1, _ :: t => appendStringLoop skip t
  | 0, b :: t =>
    if b.val < 0x80 then
      if htmlSafeSet b then b :: appendStringLoop 0 t
      else escapeASCII b ++ appendStringLoop 0 t
    else if decodeRune (b :: t) = (RuneError, 1) then
      ascii "\\ufffd" ++ appendStringLoop 0 t
    else if (decodeRune (b :: t)).1 = 0x2028 ∨ (decodeRune (b :: t)).1 = 0x2029 then
      ascii "\\u202" ++ hex ((decodeRune (b :: t)).1 % 16) ::
        appendStringLoop ((decodeRune (b :: t)).2 - 1) t
    else
      (b :: t).take (decodeRune (b :: t)).2 ++
        appendStringLoop ((decodeRune (b :: t)).2 - 1) t

/-- Go `appendString(dst, src, true)`: the JSON string literal for `src`. -/
def appendString (src : Bytes) : Bytes :=
  ch '"' :: appendStringLoop 0 src ++ [ch '"']

/-! ## encoding/json: reading -/

/-- JSON values. Strings and object keys hold the unquoted text; numbers hold the
literal. -/
inductive JValue
  | null
  | bool (b : Bool)
  | number (lit : Bytes)
  | string (s : Bytes)
  | array (elems : List JValue)
  | object (members : List (Bytes × JValue))

/-- Outcome of a parsing function: a value and the remaining input, a syntax error, or
an exhausted recursion budget. -/
inductive PResult (α : Type)
  | ok (a : α) (rest : Bytes)
  | syntaxError
  | outOfFuel

/-- Go `isSpace` of the JSON scanner. -/
def isSpace (c : Byte) : Bool := c = ch ' ' || c = ch '\t' || c = ch '\r' || c = ch '\n'

/-- Input with leading JSON white space removed. -/
def skipWS : Bytes → Bytes
  | [] => []
  | c :: t => if isSpace c then skipWS t else c :: t

/-- Value of a hexadecimal digit, as in Go `getu4`. -/
def hexVal (c : Byte) : Option Nat :=
  if ch '0' ≤ c && c ≤ ch '9' then some (c.val - 48)
  else if ch 'a' ≤ c && c ≤ ch 'f' then some (c.val - 97 + 10)
  else if ch 'A' ≤ c && c ≤ ch 'F' then some (c.val - 65 + 10)
  else none

/-- Go `getu4`: the value of a leading `\uXXXX`, `none` (Go: `-1`) when the input does
not start with one. -/
def getu4 (s : Bytes) : Option Nat :=
  match s with
  | b :: u :: h1 :: h2 :: h3 :: h4 :: _ =>
    if b = ch '\\' ∧ u = ch 'u' then
      match hexVal h1, hexVal h2, hexVal h3, hexVal h4 with
      | some a, some b, some c, some d => some (((a * 16 + b) * 16 + c) * 16 + d)
      | _, _, _, _ => none
    else none
  | _ => none

/-- The byte denoted by a one-letter escape of a JSON string. -/
def simpleEscape (e : Byte) : Option Byte :=
  if e = ch '"' ∨ e = ch '\\' ∨ e = ch '/' then some e
  else if e = ch 'b' then some 8
  else if e = ch 'f' then some 12
  else if e = ch 'n' then some 10
  else if e = ch 'r' then some 13
  else if e = ch 't' then some 9
  else none

/-- Prepends decoded bytes to the result of the rest of a string. -/
def pushBytes (bs : Bytes) : Option (Bytes × Bytes) → Option (Bytes × Bytes)
  | none => none
  | some (s, rest) => some (bs ++ s, rest)

/-- The string states of the Go scanner together with Go `unquoteBytes`: reads a JSON
string whose opening quote has been consumed and returns the unquoted text and the input
after the closing quote; `none` is a syntax error. The first argument counts the bytes
of the current rune or escape still to be passed over. Invalid UTF-8 is replaced by
U+FFFD, as is a `\u` escape of an unpaired surrogate. -/
def unquoteLoop : Nat → Bytes → Option (Bytes × Bytes)
  | _, [] => none
  | skip + 1, _ :: t => unquoteLoop skip t
  | 0, c :: t =>
    if c = ch '"' then some ([], t)
    else if c = ch '\\' then
      match t with
      | [] => none
      | e :: _ =>
        if e = ch 'u' then
          match getu4 (c :: t) with
          | none => none
          | some rr =>
            if utf16IsSurrogate rr then
              match getu4 (t.drop 5) with
              | none => pushBytes (encodeRune RuneError) (unquoteLoop 5 t)
              | some rr1 =>
                if utf16DecodeRune rr rr1 ≠ RuneError then
                  pushBytes (encodeRune (utf16DecodeRune rr rr1)) (unquoteLoop 11 t)
                else pushBytes (encodeRune RuneError) (unquoteLoop 5 t)
            else pushBytes (encodeRune rr) (unquoteLoop 5 t)
        else
          match simpleEscape e with
          | none => none
          | some b => pushBytes [b] (unquoteLoop 1 t)
    else if c.val < 0x20 then none
    else if c.val < 0x80 then pushBytes [c] (unquoteLoop 0 t)
    else
      pushBytes (encodeRune (decodeRune (c :: t)).1)
        (unquoteLoop ((decodeRune (c :: t)).2 - 1) t)

/-- Decimal digit test. -/
def isDigit (c : Byte) : Bool := ch '0' ≤ c && c ≤ ch '9'

/-- The longest run of digits at the start of the input, and what follows it. -/
def spanDigits : Bytes → Bytes × Bytes
  | [] => ([], [])
  | c :: t => if isDigit c then (c :: (spanDigits t).1, (spanDigits t).2) else ([], c :: t)

/-- Integer part of a JSON number: `0` or a non-zero digit followed by digits. -/
def scanInt : Bytes → Option (Bytes × Bytes)
  | [] => none
  | c :: t =>
    if c = ch '0' then some ([c], t)
    else if isDigit c then some (c :: (spanDigits t).1, (spanDigits t).2)
    else none

/-- Optional fraction of a JSON number: `.` and at least one digit. -/
def scanFrac : Bytes → Option (Bytes × Bytes)
  | [] => some ([], [])
  | c :: t =>
    if c = ch '.' then
      if (spanDigits t).1 = [] then none else some (c :: (spanDigits t).1, (spanDigits t).2)
    else some ([], c :: t)

/-- Optional exponent of a JSON number: `e` or `E`, an optional sign, at least one digit. -/
def scanExp : Bytes → Option (Bytes × Bytes)
  | [] => some ([], [])
  | c :: t =>
    if c = ch 'e' ∨ c = ch 'E' then
      match t with
      | [] => none
      | s :: t1 =>
        if s = ch '+' ∨ s = ch '-' then
          if (spanDigits t1).1 = [] then none
          else some (c :: s :: (spanDigits t1).1, (spanDigits t1).2)
        else if (spanDigits t).1 = [] then none
        else some (c :: (spanDigits t).1, (spanDigits t).2)
    else some ([], c :: t)

/-- The number states of the Go scanner: the literal at the start of the input and what
follows it. -/
def scanNumber (s : Bytes) : Option (Bytes × Bytes) :=
  let neg := startsWith s [ch '-']
  match scanInt (if neg then s.drop 1 else s) with
  | none => none
  | some (i, r1) =>
    match scanFrac r1 with
    | none => none
    | some (f, r2) =>
      match scanExp r2 with
      | none => none
      | some (e, r3) => some ((if neg then [ch '-'] else []) ++ i ++ f ++ e, r3)

/-- Go `maxNestingDepth` of the JSON scanner. -/
def maxNestingDepth : Nat := 10000

mutual
/-- One JSON value at the start of the input, leading white space allowed. The first
argument bounds the recursion, the second is the number of enclosing arrays and
objects. -/
def parseValue : Nat → Nat → Bytes → PResult JValue
  | 0, _, _ => PResult.outOfFuel
  | n + 1, d, s =>
    match skipWS s with
    | [] => PResult.syntaxError
    | c :: t =>
      if c = ch '{' then
        if d ≥ maxNestingDepth then PResult.syntaxError
        else
          match skipWS t with
          | [] => PResult.syntaxError
          | c2 :: t2 =>
            if c2 = ch '}' then PResult.ok (JValue.object []) t2
            else
              match parseMembers n (d + 1) (c2 :: t2) with
              | PResult.ok ms r => PResult.ok (JValue.object ms) r
              | PResult.syntaxError => PResult.syntaxError
              | PResult.outOfFuel => PResult.outOfFuel
      else if c = ch '[' then
        if d ≥ maxNestingDepth then PResult.syntaxError
        else
          match skipWS t with
          | [] => PResult.syntaxError
          | c2 :: t2 =>
            if c2 = ch ']' then PResult.ok (JValue.array []) t2
            else
              match parseElems n (d + 1) (c2 :: t2) with
              | PResult.ok vs r => PResult.ok (JValue.array vs) r
              | PResult.syntaxError => PResult.syntaxError
              | PResult.outOfFuel => PResult.outOfFuel
      else if c = ch '"' then
        match unquoteLoop 0 t with
        | none => PResult.syntaxError
        | some (str, r) => PResult.ok (JValue.string str) r
      else if c = ch '-' ∨ isDigit c then
        match scanNumber (c :: t) with
        | none => PResult.syntaxError
        | some (lit, r) => PResult.ok (JValue.number lit) r
      else if startsWith (c :: t) (ascii "true") then PResult.ok (JValue.bool true) (t.drop 3)
      else if startsWith (c :: t) (ascii "false") then PResult.ok (JValue.bool false) (t.drop 4)
      else if startsWith (c :: t) (ascii "null") then PResult.ok JValue.null (t.drop 3)
      else PResult.syntaxError
/-- The elements of a non-empty array up to and including the closing bracket. -/
def parseElems : Nat → Nat → Bytes → PResult (List JValue)
  | 0, _, _ => PResult.outOfFuel
  | n + 1, d, s =>
    match parseValue n d s with
    | PResult.syntaxError => PResult.syntaxError
    | PResult.outOfFuel => PResult.outOfFuel
    | PResult.ok v r =>
      match skipWS r with
      | [] => PResult.syntaxError
      | c :: t =>
        if c = ch ',' then
          match parseElems n d t with
          | PResult.ok vs r2 => PResult.ok (v :: vs) r2
          | PResult.syntaxError => PResult.syntaxError
          | PResult.outOfFuel => PResult.outOfFuel
        else if c = ch ']' then PResult.ok [v] t
        else PResult.syntaxError
/-- The members of a non-empty object up to and including the closing brace. -/
def parseMembers : Nat → Nat → Bytes → PResult (List (Bytes × JValue))
  | 0, _, _ => PResult.outOfFuel
  | n + 1, d, s =>
    match skipWS s with
    | [] => PResult.syntaxError
    | c :: t =>
      if c = ch '"' then
        match unquoteLoop 0 t with
        | none => PResult.syntaxError
        | some (key, r) =>
          match skipWS r with
          | [] => PResult.syntaxError
          | c2 :: t2 =>
            if c2 = ch ':' then
              match parseValue n d t2 with
              | PResult.syntaxError => PResult.syntaxError
              | PResult.outOfFuel => PResult.outOfFuel
              | PResult.ok v r2 =>
                match skipWS r2 with
                | [] => PResult.syntaxError
                | c3 :: t3 =>
                  if c3 = ch ',' then
                    match parseMembers n d t3 with
                    | PResult.ok ms r3 => PResult.ok ((key, v) :: ms) r3
                    | PResult.syntaxError => PResult.syntaxError
                    | PResult.outOfFuel => PResult.outOfFuel
                  else if c3 = ch '}' then PResult.ok [(key, v)] t3
                  else PResult.syntaxError
            else PResult.syntaxError
      else PResult.syntaxError
end

/-- The scanner pass of Go `json.Unmarshal` (`checkValid`) together with the reading of
the value: the JSON value that `data` denotes, `none` when `data` is not one JSON value
surrounded by optional white space. -/
def jsonParse (data : Bytes) : Option JValue :=
  match parseValue (2 * data.length + 1) 0 data with
  | PResult.ok v rest => if skipWS rest = [] then some v else none
  | PResult.syntaxError => none
  | PResult.outOfFuel => none

/-- Go `foldRune` of `encoding/json` (the smallest rune of the case-folding orbit),
exact on the runes whose orbit contains an ASCII letter: besides the ASCII letters
these are U+212A KELVIN SIGN (orbit of `K`) and U+017F LATIN SMALL LETTER LONG S (orbit
of `S`). Every other rune is left in place; its fold is not ASCII either, so whether a
folded key equals the folded name of a field of `main.go` (all ASCII) is not affected. -/
def foldRune (r : Nat) : Nat :=
  if r = 0x212A then 0x4B
  else if r = 0x17F then 0x53
  else r

/-- The loop of Go `appendFoldedName`; the first argument counts the bytes of the current
rune still to be passed over. -/
def foldNameLoop : Nat → Bytes → Bytes
  | _, [] => []
  | skip + 1, _ :: t => foldNameLoop skip t
  | 0, c :: t =>
    if c.val < 0x80 then
      (if ch 'a' ≤ c && c ≤ ch 'z' then byte (c.val - 32) else c) :: foldNameLoop 0 t
    else
      encodeRune (foldRune (decodeRune (c :: t)).1) ++
        foldNameLoop ((decodeRune (c :: t)).2 - 1) t

/-- Go `foldName`: the case-folded form of an object key or field name. -/
def foldName (s : Bytes) : Bytes := foldNameLoop 0 s

/-- The struct field that an object key selects in the Go decoder: the field whose name
is the key, otherwise the first field whose folded name is the folded key. -/
def findField (names : List Bytes) (key : Bytes) : Option Bytes :=
  match names.find? (fun n => n = key) with
  | some n => some n
  | none => names.find? (fun n => foldName n = foldName key)

/-- Store of a JSON value into a Go `string`: the new contents and whether an
`UnmarshalTypeError` is recorded. `null` leaves the field as it is. -/
def storeString (v : JValue) (cur : Bytes) : Bytes × Bool :=
  match v with
  | JValue.null => (cur, false)
  | JValue.string s => (s, false)
  | _ => (cur, true)

/-- Go `strconv.ParseInt(lit, 10, 64)` on a JSON number literal: `none` for a literal with
a fraction or an exponent and for a value outside the 64-bit range. -/
def parseInt64 (lit : Bytes) : Option Int :=
  let neg := startsWith lit [ch '-']
  let digits := if neg then lit.drop 1 else lit
  if digits = [] ∨ ¬ digits.all isDigit then none
  else
    let n : Nat := digits.foldl (fun (a : Nat) (c : Byte) => a * 10 + (c.val - 48)) 0
    if neg then (if n ≤ 2 ^ 63 then some (- (n : Int)) else none)
    else (if n < 2 ^ 63 then some (n : Int) else none)

/-- Store of a JSON value into a Go `int` (64 bits wide). -/
def storeInt (v : JValue) (cur : Int) : Int × Bool :=
  match v with
  | JValue.null => (cur, false)
  | JValue.number lit =>
    match parseInt64 lit with
    | some n => (n, false)
    | none => (cur, true)
  | _ => (cur, true)

/-! ## The types of `main.go` -/

/-- Go `authAPIEndpoint`. -/
def authAPIEndpoint : Bytes :=
  ascii "https://identitytoolkit.googleapis.com/v1/accounts:signInWithPassword"

/-- Go `signInWithPasswordInput`. -/
structure signInWithPasswordInput where
  Email : Bytes
  Password : Bytes
  ReturnSecureToken : Bool
  deriving DecidableEq, Repr

/-- Go `signInWithPasswordPayload`. -/
structure signInWithPasswordPayload where
  Email : Bytes
  IDToken : Bytes
  deriving DecidableEq, Repr

/-- The struct of the field `Error` of Go `errorPayload`. The slice `Errors` is not
represented: the program never reads it, and only the type errors that decoding it can
raise are part of the model (`storeErrors`). -/
structure errorPayloadError where
  Code : Int
  Message : Bytes
  deriving DecidableEq, Repr

/-- Go `errorPayload`. -/
structure errorPayload where
  Error : errorPayloadError
  deriving DecidableEq, Repr

/-- Kinds of error that `json.Unmarshal` returns. -/
inductive JsonErrorKind
  | SyntaxError
  | UnmarshalTypeError
  deriving DecidableEq, Repr

/-- The Go `error` values that reach `main`. Errors made by the standard library are
identified by the call that returned them; an error of the transport is identified by
its text. -/
inductive GoError
  | errorString (s : Bytes)
  | jsonError (kind : JsonErrorKind) (data : Bytes)
  | requestError (method url : Bytes)
  | external (text : Bytes)
  deriving DecidableEq, Repr

/-- Go `err.Error()`. The wording of the errors made by the standard library is the
parameter `libText`. -/
def GoError.Error (libText : GoError → Bytes) : GoError → Bytes
  | GoError.errorString s => s
  | GoError.external text => text
  | e => libText e

/-! ## encoding/json on the types of `main.go` -/

/-- Go `json.Marshal` on a `signInWithPasswordInput`: the fields in declaration order
under their `json` tags. The error is always nil for this type. -/
def jsonMarshal (input : signInWithPasswordInput) : Bytes × Option GoError :=
  (ascii "\x7b\"email\":" ++ appendString input.Email ++
   ascii ",\"password\":" ++ appendString input.Password ++
   ascii ",\"returnSecureToken\":" ++
   (if input.ReturnSecureToken then ascii "true" else ascii "false") ++ ascii "\x7d", none)

/-- The JSON names of the fields of `signInWithPasswordPayload`. -/
def payloadFields : List Bytes := [ascii "email", ascii "idToken"]

/-- Decoding of one object member into a `signInWithPasswordPayload`; the flag records
that an `UnmarshalTypeError` has been saved. -/
def storePayloadMember (st : signInWithPasswordPayload × Bool) (kv : Bytes × JValue) :
    signInWithPasswordPayload × Bool :=
  match findField payloadFields kv.1 with
  | none => st
  | some f =>
    if f = ascii "email" then
      ({ st.1 with Email := (storeString kv.2 st.1.Email).1 },
        st.2 || (storeString kv.2 st.1.Email).2)
    else
      ({ st.1 with IDToken := (storeString kv.2 st.1.IDToken).1 },
        st.2 || (storeString kv.2 st.1.IDToken).2)

/-- Decoding of a JSON value into a `signInWithPasswordPayload`. -/
def storePayload (v : JValue) (cur : signInWithPasswordPayload) :
    signInWithPasswordPayload × Bool :=
  match v with
  | JValue.null => (cur, false)
  | JValue.object ms => ms.foldl storePayloadMember (cur, false)
  | _ => (cur, true)

/-- Go `json.Unmarshal(data, &payload)` with `payload` a `signInWithPasswordPayload`. -/
def jsonUnmarshalPayload (data : Bytes) (cur : signInWithPasswordPayload) :
    signInWithPasswordPayload × Option GoError :=
  match jsonParse data with
  | none => (cur, some (GoError.jsonError JsonErrorKind.SyntaxError data))
  | some v =>
    ((storePayload v cur).1,
      if (storePayload v cur).2 then
        some (GoError.jsonError JsonErrorKind.UnmarshalTypeError data)
      else none)

/-- The JSON names of the fields of an element of `Errors`. -/
def errorItemFields : List Bytes := [ascii "message", ascii "global", ascii "invalid"]

/-- Whether decoding a JSON value into an element of `Errors` raises an
`UnmarshalTypeError`. -/
def storeErrorItem (v : JValue) : Bool :=
  match v with
  | JValue.null => false
  | JValue.object ms =>
    ms.any (fun kv =>
      match findField errorItemFields kv.1 with
      | none => false
      | some _ => (storeString kv.2 []).2)
  | _ => true

/-- Whether decoding a JSON value into the slice `Errors` raises an `UnmarshalTypeError`. -/
def storeErrors (v : JValue) : Bool :=
  match v with
  | JValue.null => false
  | JValue.array es => es.any storeErrorItem
  | _ => true

/-- The JSON names of the fields of `errorPayload.Error`. -/
def errorFields : List Bytes := [ascii "code", ascii "message", ascii "errors"]

/-- Decoding of one object member into `errorPayload.Error`. -/
def storeErrorMember (st : errorPayloadError × Bool) (kv : Bytes × JValue) :
    errorPayloadError × Bool :=
  match findField errorFields kv.1 with
  | none => st
  | some f =>
    if f = ascii "code" then
      ({ st.1 with Code := (storeInt kv.2 st.1.Code).1 }, st.2 || (storeInt kv.2 st.1.Code).2)
    else if f = ascii "message" then
      ({ st.1 with Message := (storeString kv.2 st.1.Message).1 },
        st.2 || (storeString kv.2 st.1.Message).2)
    else (st.1, st.2 || storeErrors kv.2)

/-- Decoding of a JSON value into `errorPayload.Error`. -/
def storeError (v : JValue) (cur : errorPayloadError) : errorPayloadError × Bool :=
  match v with
  | JValue.null => (cur, false)
  | JValue.object ms => ms.foldl storeErrorMember (cur, false)
  | _ => (cur, true)

/-- Decoding of one object member into an `errorPayload`. -/
def storeErrorPayloadMember (st : errorPayload × Bool) (kv : Bytes × JValue) :
    errorPayload × Bool :=
  match findField [ascii "error"] kv.1 with
  | none => st
  | some _ => ({ Error := (storeError kv.2 st.1.Error).1 }, st.2 || (storeError kv.2 st.1.Error).2)

/-- Decoding of a JSON value into an `errorPayload`. -/
def storeErrorPayload (v : JValue) (cur : errorPayload) : errorPayload × Bool :=
  match v with
  | JValue.null => (cur, false)
  | JValue.object ms => ms.foldl storeErrorPayloadMember (cur, false)
  | _ => (cur, true)

/-- Go `json.Unmarshal(data, &errorResp)` with `errorResp` an `errorPayload`. -/
def jsonUnmarshalErrorPayload (data : Bytes) (cur : errorPayload) :
    errorPayload × Option GoError :=
  match jsonParse data with
  | none => (cur, some (GoError.jsonError JsonErrorKind.SyntaxError data))
  | some v =>
    ((storeErrorPayload v cur).1,
      if (storeErrorPayload v cur).2 then
        some (GoError.jsonError JsonErrorKind.UnmarshalTypeError data)
      else none)

/-- Whether a Go `string` field refuses a JSON value: anything but a string and `null`. -/
def notStringOrNull (v : JValue) : Bool :=
  match v with
  | JValue.null => false
  | JValue.string _ => false
  | _ => true

/-- Whether a Go `int` field refuses a JSON value: anything but `null` and a number
literal that `strconv.ParseInt` accepts. -/
def notIntOrNull (v : JValue) : Bool :=
  match v with
  | JValue.null => false
  | JValue.number lit => (parseInt64 lit).isNone
  | _ => true

/-- The JSON values that `json.Unmarshal` refuses for a `signInWithPasswordPayload`: a
value that is neither `null` nor an object, and an object with a member that selects the
field `email` or `idToken` and is neither a string nor `null`. -/
def payloadMismatch (v : JValue) : Bool :=
  match v with
  | JValue.null => false
  | JValue.object ms =>
    ms.any (fun kv => (findField payloadFields kv.1).isSome && notStringOrNull kv.2)
  | _ => true

/-- The members that `json.Unmarshal` refuses inside the object `error`. -/
def errorMemberMismatch (kv : Bytes × JValue) : Bool :=
  match findField errorFields kv.1 with
  | none => false
  | some f =>
    if f = ascii "code" then notIntOrNull kv.2
    else if f = ascii "message" then notStringOrNull kv.2
    else storeErrors kv.2

/-- The JSON values that `json.Unmarshal` refuses for the field `Error`. -/
def errorMismatch (v : JValue) : Bool :=
  match v with
  | JValue.null => false
  | JValue.object ms => ms.any errorMemberMismatch
  | _ => true

/-- The JSON values that `json.Unmarshal` refuses for an `errorPayload`. -/
def errorPayloadMismatch (v : JValue) : Bool :=
  match v with
  | JValue.null => false
  | JValue.object ms =>
    ms.any (fun kv => (findField [ascii "error"] kv.1).isSome && errorMismatch kv.2)
  | _ => true

/-! ## net/http -/

/-- Go `http.Header`. -/
abbrev Header := List (Bytes × List Bytes)

/-- Go `http.Request`: the parts that `signInWithPassword` sets. -/
structure Request where
  Method : Bytes
  URL : URL
  Header : Header
  Body : Bytes
  deriving DecidableEq, Repr

/-- Token bytes of HTTP (method names and header field names). -/
def isTokenByte (c : Byte) : Bool := isAlnum c || (ascii "!#$%&'*+-.^_|~").contains c || c.val = 96

/-- The case change of Go `textproto.CanonicalMIMEHeaderKey`: a letter is upper case at
the start and after `-`, lower case elsewhere. -/
def canonicalCase : Bool → Bytes → Bytes
  | _, [] => []
  | upper, c :: t =>
    (if upper && (ch 'a' ≤ c && c ≤ ch 'z') then byte (c.val - 32)
     else if !upper && (ch 'A' ≤ c && c ≤ ch 'Z') then byte (c.val + 32)
     else c) :: canonicalCase (c = ch '-') t

/-- Go `textproto.CanonicalMIMEHeaderKey`. -/
def CanonicalMIMEHeaderKey (s : Bytes) : Bytes :=
  if s.all isTokenByte then canonicalCase true s else s

/-- Go `Header.Set`. -/
def Header.Set (h : Header) (key value : Bytes) : Header :=
  Values.Set h (CanonicalMIMEHeaderKey key) value

/-- Go `Header.Values`. -/
def Header.Values (h : Header) (key : Bytes) : List Bytes :=
  match h.find? (fun kv => kv.1 = CanonicalMIMEHeaderKey key) with
  | some kv => kv.2
  | none => []

/-- Go `http.MethodPost`. -/
def MethodPost : Bytes := ascii "POST"

/-- Go `http.StatusOK`. -/
def StatusOK : Int := 200

/-- Go `http.NewRequestWithContext` with a non-nil context and a `bytes.Reader` body: the
method has to be a token and the URL has to parse. -/
def NewRequestWithContext (method url body : Bytes) : Except GoError Request :=
  if method = [] ∨ ¬ method.all isTokenByte then Except.error (GoError.requestError method url)
  else
    match urlParse url with
    | none => Except.error (GoError.requestError method url)
    | some u => Except.ok { Method := method, URL := u, Header := [], Body := body }

/-- Go `resp.Body`: what `io.ReadAll` and `Close` return on it. -/
structure ReadCloser where
  ReadAll : Bytes × Option GoError
  Close : Option GoError

/-- Go `http.Response`: the parts that `signInWithPassword` reads. -/
structure Response where
  StatusCode : Int
  Body : ReadCloser

/-- What the program runs in: the package variables that `init` fills from the flags (or
the environment), the answer of `http.Client.Do` to a request (a response or a non-nil
error), and the wording of the errors of the standard library. -/
structure Env where
  apiKey : Bytes
  email : Bytes
  password : Bytes
  Do : Request → Except GoError Response
  libText : GoError → Bytes

/-! ## `main.go` -/

/-- Lines 70 to 85 of `signInWithPassword`: the request handed to `client.Do`, or the
error returned before anything is sent. -/
def buildRequest (apiKey : Bytes) (input : signInWithPasswordInput) : Except GoError Request :=
  match jsonMarshal input with
  | (_, some err) => Except.error err
  | (reqBodyBytes, none) =>
    match NewRequestWithContext MethodPost authAPIEndpoint reqBodyBytes with
    | Except.error err => Except.error err
    | Except.ok req =>
      let req1 : Request :=
        { req with Header := req.Header.Set (ascii "Content-Type") (ascii "application/json") }
      let values := req1.URL.Query
      let values1 := values.Set (ascii "key") apiKey
      Except.ok { req1 with URL := { req1.URL with RawQuery := values1.Encode } }

/-- Lines 96 to 122 of `signInWithPassword`: what is returned for a response. -/
def readResponse (resp : Response) : Option signInWithPasswordPayload × Option GoError :=
  match resp.Body.ReadAll with
  | (_, some err) => (none, some err)
  | (respBodyBytes, none) =>
    match resp.Body.Close with
    | some err => (none, some err)
    | none =>
      if resp.StatusCode ≠ StatusOK then
        match jsonUnmarshalErrorPayload respBodyBytes ⟨⟨0, []⟩⟩ with
        | (_, some err) => (none, some err)
        | (errorResp, none) => (none, some (GoError.errorString errorResp.Error.Message))
      else
        match jsonUnmarshalPayload respBodyBytes ⟨[], []⟩ with
        | (_, some err) => (none, some err)
        | (payload, none) => (some payload, none)

/-- Go `signInWithPassword`: the pair `(payload, err)` it returns, `none` standing for
nil. The package variable `apiKey` is read from `env`; the context is
`context.Background()`, which is never cancelled, and the timeout of the client shows
as an error of `env.Do`. -/
def signInWithPassword (env : Env) (input : signInWithPasswordInput) :
    Option signInWithPasswordPayload × Option GoError :=
  match buildRequest env.apiKey input with
  | Except.error err => (none, some err)
  | Except.ok req =>
    match env.Do req with
    | Except.error err => (none, some err)
    | Except.ok resp => readResponse resp

/-- How a run of the program ends: it returns from `main` having written `stdout`, or
it panics. -/
inductive Outcome
  | exit (stdout : Bytes)
  | panic
  deriving DecidableEq, Repr

/-- Go `main`. Reading `payload.IDToken` of a nil payload is a nil-pointer panic. -/
def main (env : Env) : Outcome :=
  match signInWithPassword env
      { Email := env.email, Password := env.password, ReturnSecureToken := true } with
  | (_, some err) =>
    Outcome.exit (ascii "failed signInWithPassword(). Reason " ++ err.Error env.libText ++ ascii "\n")
  | (some payload, none) => Outcome.exit (ascii "Bearer " ++ payload.IDToken)
  | (none, none) => Outcome.panic

/-! ## Environments used to evaluate the program on concrete inputs -/

/-- The network answers every request with the given status and body; reading and closing
the body succeed. -/
def respondingEnv (apiKey email password : Bytes) (status : Int) (body : Bytes) : Env :=
  { apiKey := apiKey, email := email, password := password,
    Do := fun _ => Except.ok { StatusCode := status, Body := { ReadAll := (body, none), Close := none } },
    libText := fun _ => ascii "json: error" }

/-- The send fails with the error `e`. -/
def unreachableEnv (apiKey email password : Bytes) (e : GoError) : Env :=
  { apiKey := apiKey, email := email, password := password,
    Do := fun _ => Except.error e,
    libText := fun _ => ascii "json: error" }

/-- The request that `signInWithPassword` hands to `client.Do` for the given API key and
input (the value of `buildRequest`, see `buildRequest_eq`). -/
def sentRequest (apiKey : Bytes) (input : signInWithPasswordInput) : Request :=
  { Method := ascii "POST",
    URL := { Scheme := ascii "https", Host := ascii "identitytoolkit.googleapis.com",
             Path := ascii "/v1/accounts:signInWithPassword",
             RawQuery := ascii "key=" ++ QueryEscape apiKey },
    Header := [(ascii "Content-Type", [ascii "application/json"])],
    Body := (jsonMarshal input).1 }

/-! ## The control flow of `signInWithPassword` and `main` -/

/-- Building the request never fails, and the request is `sentRequest`. -/
theorem buildRequest_eq (apiKey : Bytes) (input : signInWithPasswordInput) :
    buildRequest apiKey input = Except.ok (sentRequest apiKey input) := rfl

/-- When the send fails, its error is what `signInWithPassword` returns. -/
theorem signInWithPassword_of_send_error (env : Env) (input : signInWithPasswordInput)
    (e : GoError) (hdo : env.Do (sentRequest env.apiKey input) = Except.error e) :
    signInWithPassword env input = (none, some e) := by
  unfold signInWithPassword
  rw [buildRequest_eq]
  dsimp only
  rw [hdo]

/-- When the send succeeds, the result is that of reading the response. -/
theorem signInWithPassword_of_response (env : Env) (input : signInWithPasswordInput)
    (resp : Response) (hdo : env.Do (sentRequest env.apiKey input) = Except.ok resp) :
    signInWithPassword env input = readResponse resp := by
  unfold signInWithPassword
  rw [buildRequest_eq]
  dsimp only
  rw [hdo]

/-- Reading a response returns a payload exactly when it returns no error. -/
theorem readResponse_exclusive (resp : Response) :
    (readResponse resp).1.isSome = (readResponse resp).2.isNone := by
  unfold readResponse
  rcases hra : resp.Body.ReadAll with ⟨b, _ | e⟩
  · dsimp only
    cases hc : resp.Body.Close with
    | some e => rfl
    | none =>
      dsimp only
      split
      · rcases hu : jsonUnmarshalErrorPayload b ⟨⟨0, []⟩⟩ with ⟨p, _ | e⟩ <;> rfl
      · rcases hu : jsonUnmarshalPayload b ⟨[], []⟩ with ⟨p, _ | e⟩ <;> rfl
  · rfl

/-- The result of `signInWithPassword` has a payload exactly when it has no error. -/
theorem signInWithPassword_exclusive (env : Env) (input : signInWithPasswordInput) :
    (signInWithPassword env input).1.isSome = (signInWithPassword env input).2.isNone := by
  cases hdo : env.Do (sentRequest env.apiKey input) with
  | error e => rw [signInWithPassword_of_send_error env input e hdo]; rfl
  | ok resp => rw [signInWithPassword_of_response env input resp hdo]; exact readResponse_exclusive resp

/-- What `main` prints when `signInWithPassword` returns an error. -/
theorem main_of_error (env : Env) (e : GoError)
    (h : signInWithPassword env ⟨env.email, env.password, true⟩ = (none, some e)) :
    main env = Outcome.exit
      (ascii "failed signInWithPassword(). Reason " ++ e.Error env.libText ++ ascii "\n") := by
  unfold main
  rw [h]

/-- What `main` prints when `signInWithPassword` returns a payload. -/
theorem main_of_payload (env : Env) (p : signInWithPasswordPayload)
    (h : signInWithPassword env ⟨env.email, env.password, true⟩ = (some p, none)) :
    main env = Outcome.exit (ascii "Bearer " ++ p.IDToken) := by
  unfold main
  rw [h]

/-- The result of `signInWithPassword` is a payload without error or an error without
payload. -/
theorem signInWithPassword_cases (env : Env) (input : signInWithPasswordInput) :
    (∃ p, signInWithPassword env input = (some p, none)) ∨
    (∃ e, signInWithPassword env input = (none, some e)) := by
  have h := signInWithPassword_exclusive env input
  rcases hr : signInWithPassword env input with ⟨_ | p, _ | e⟩
  · rw [hr] at h; exact absurd h (by simp)
  · exact Or.inr ⟨e, rfl⟩
  · exact Or.inl ⟨p, rfl⟩
  · rw [hr] at h; exact absurd h (by simp)

/-- Reading a response with status 200 whose body decodes without error. -/
theorem readResponse_ok (resp : Response) (body : Bytes) (p : signInWithPasswordPayload)
    (hstatus : resp.StatusCode = 200) (hread : resp.Body.ReadAll = (body, none))
    (hclose : resp.Body.Close = none)
    (hbody : jsonUnmarshalPayload body ⟨[], []⟩ = (p, none)) :
    readResponse resp = (some p, none) := by
  unfold readResponse
  rw [hread]; dsimp only
  rw [hclose]; dsimp only
  rw [if_neg (by rw [hstatus]; decide)]
  rw [hbody]

/-- Reading a response with status 200 whose body is rejected by the decoder. -/
theorem readResponse_ok_rejected (resp : Response) (body : Bytes)
    (q : signInWithPasswordPayload) (e : GoError)
    (hstatus : resp.StatusCode = 200) (hread : resp.Body.ReadAll = (body, none))
    (hclose : resp.Body.Close = none)
    (hbody : jsonUnmarshalPayload body ⟨[], []⟩ = (q, some e)) :
    readResponse resp = (none, some e) := by
  unfold readResponse
  rw [hread]; dsimp only
  rw [hclose]; dsimp only
  rw [if_neg (by rw [hstatus]; decide)]
  rw [hbody]

/-- Reading a response with a status other than 200 whose body decodes without error. -/
theorem readResponse_failure (resp : Response) (body : Bytes) (p : errorPayload)
    (hstatus : resp.StatusCode ≠ 200) (hread : resp.Body.ReadAll = (body, none))
    (hclose : resp.Body.Close = none)
    (hbody : jsonUnmarshalErrorPayload body ⟨⟨0, []⟩⟩ = (p, none)) :
    readResponse resp = (none, some (GoError.errorString p.Error.Message)) := by
  unfold readResponse
  rw [hread]; dsimp only
  rw [hclose]; dsimp only
  rw [if_pos (by simpa [StatusOK] using hstatus)]
  rw [hbody]

/-- Reading a response with a status other than 200 whose body is rejected by the
decoder. -/
theorem readResponse_failure_rejected (resp : Response) (body : Bytes) (q : errorPayload)
    (e : GoError)
    (hstatus : resp.StatusCode ≠ 200) (hread : resp.Body.ReadAll = (body, none))
    (hclose : resp.Body.Close = none)
    (hbody : jsonUnmarshalErrorPayload body ⟨⟨0, []⟩⟩ = (q, some e)) :
    readResponse resp = (none, some e) := by
  unfold readResponse
  rw [hread]; dsimp only
  rw [hclose]; dsimp only
  rw [if_pos (by simpa [StatusOK] using hstatus)]
  rw [hbody]

/-! ## net/url: escaping and unescaping of a query component -/

/-- The two hexadecimal digits written for a byte are read back as that byte. -/
theorem unhex_upperhex (c : Byte) :
    ishex (upperhex (c.val / 16)) = true ∧ ishex (upperhex (c.val % 16)) = true ∧
    byte (unhex (upperhex (c.val / 16)) * 16 + unhex (upperhex (c.val % 16))) = c := by
  revert c; decide

/-- A byte that a query component keeps as it is, is none of the bytes with a meaning in
a query string. -/
theorem not_special_of_not_shouldEscape (c : Byte)
    (h : shouldEscape c encoding.encodeQueryComponent = false) :
    c ≠ ch '%' ∧ c ≠ ch '+' ∧ c ≠ ch '&' ∧ c ≠ ch ';' ∧ c ≠ ch ' ' := by
  revert c; decide

/-- The hexadecimal digits are none of the bytes with a meaning in a query string. -/
theorem upperhex_not_special (c : Byte) :
    upperhex (c.val / 16) ≠ ch '&' ∧ upperhex (c.val / 16) ≠ ch ';' ∧
    upperhex (c.val % 16) ≠ ch '&' ∧ upperhex (c.val % 16) ≠ ch ';' := by
  revert c; decide

/-- Unfolding of `QueryEscape` on a non-empty string. -/
theorem QueryEscape_cons (c : Byte) (t : Bytes) :
    QueryEscape (c :: t) =
      if c = ch ' ' then ch '+' :: QueryEscape t
      else if shouldEscape c encoding.encodeQueryComponent = true then
        ch '%' :: upperhex (c.val / 16) :: upperhex (c.val % 16) :: QueryEscape t
      else c :: QueryEscape t := by
  unfold QueryEscape
  rw [escape]
  by_cases h : c = ch ' '
  · simp [h]
  · simp [h]

/-- Unfolding of `QueryUnescape` at a byte other than `%` and `+`. -/
theorem QueryUnescape_cons_plain (c : Byte) (t : Bytes) (h1 : c ≠ ch '%') (h2 : c ≠ ch '+') :
    QueryUnescape (c :: t) = (QueryUnescape t).map (fun r => c :: r) := by
  conv_lhs => unfold QueryUnescape
  rw [if_neg h1, if_neg h2]

/-- Unfolding of `QueryUnescape` at `+`. -/
theorem QueryUnescape_cons_plus (t : Bytes) :
    QueryUnescape (ch '+' :: t) = (QueryUnescape t).map (fun r => ch ' ' :: r) := by
  conv_lhs => unfold QueryUnescape
  rw [if_neg (by decide), if_pos rfl]

/-- Unfolding of `QueryUnescape` at a well-formed `%XX`. -/
theorem QueryUnescape_cons_percent (a b : Byte) (t : Bytes) (ha : ishex a = true)
    (hb : ishex b = true) :
    QueryUnescape (ch '%' :: a :: b :: t)
      = (QueryUnescape t).map (fun r => byte (unhex a * 16 + unhex b) :: r) := by
  conv_lhs => unfold QueryUnescape
  rw [if_pos rfl]
  simp only [ha, hb, Bool.and_self, if_true]

/-- `QueryUnescape` undoes `QueryEscape`, for every byte string. -/
theorem QueryUnescape_QueryEscape (s : Bytes) : QueryUnescape (QueryEscape s) = some s := by
  induction s with
  | nil => rfl
  | cons c t ih =>
    rw [QueryEscape_cons]
    by_cases h1 : c = ch ' '
    · rw [if_pos h1]
      rw [QueryUnescape_cons_plus, ih, h1]
      rfl
    · rw [if_neg h1]
      by_cases h2 : shouldEscape c encoding.encodeQueryComponent = true
      · rw [if_pos h2]
        obtain ⟨ha, hb, hc⟩ := unhex_upperhex c
        rw [QueryUnescape_cons_percent _ _ _ ha hb, ih]
        simp only [Option.map_some', hc]
      · rw [if_neg h2]
        have h3 := not_special_of_not_shouldEscape c (by simpa using h2)
        rw [QueryUnescape_cons_plain _ _ h3.1 h3.2.1, ih]
        rfl

/-- An escaped query component contains neither `&` nor `;`. -/
theorem QueryEscape_no_separator (s : Bytes) :
    ∀ c ∈ QueryEscape s, c ≠ ch '&' ∧ c ≠ ch ';' := by
  induction s with
  | nil => intro c hc; cases hc
  | cons a t ih =>
    intro c hc
    rw [QueryEscape_cons] at hc
    by_cases h1 : a = ch ' '
    · rw [if_pos h1] at hc
      rcases List.mem_cons.mp hc with h | h
      · subst h; exact ⟨by decide, by decide⟩
      · exact ih c h
    · rw [if_neg h1] at hc
      by_cases h2 : shouldEscape a encoding.encodeQueryComponent = true
      · rw [if_pos h2] at hc
        obtain ⟨u1, u2, u3, u4⟩ := upperhex_not_special a
        rcases List.mem_cons.mp hc with h | hc
        · subst h; exact ⟨by decide, by decide⟩
        rcases List.mem_cons.mp hc with h | hc
        · subst h; exact ⟨u1, u2⟩
        rcases List.mem_cons.mp hc with h | hc
        · subst h; exact ⟨u3, u4⟩
        exact ih c hc
      · rw [if_neg h2] at hc
        have h3 := not_special_of_not_shouldEscape a (by simpa using h2)
        rcases List.mem_cons.mp hc with h | hc
        · subst h; exact ⟨h3.2.2.1, h3.2.2.2.1⟩
        · exact ih c hc

/-- A string without `&` is one segment of a query string. -/
theorem splitAmp_of_no_amp (c : Byte) (s : Bytes) (hc : c ≠ ch '&')
    (h : ∀ x ∈ s, x ≠ ch '&') : splitAmp (c :: s) = [c :: s] := by
  induction s generalizing c with
  | nil => rw [splitAmp, if_neg hc]; rfl
  | cons a t ih =>
    rw [splitAmp, if_neg hc, ih a (h a (List.mem_cons_self a t))
      (fun x hx => h x (List.mem_cons_of_mem a hx))]

/-- A query component that needs no escape is written as it is. -/
theorem QueryEscape_of_unreserved (s : Bytes)
    (h : s.all (fun c => !shouldEscape c encoding.encodeQueryComponent) = true) :
    QueryEscape s = s := by
  induction s with
  | nil => rfl
  | cons c t ih =>
    simp only [List.all_cons, Bool.and_eq_true, Bool.not_eq_true'] at h
    have h3 := not_special_of_not_shouldEscape c h.1
    rw [QueryEscape_cons, if_neg h3.2.2.2.2, if_neg (by simp [h.1]), ih (by simpa using h.2)]

/-- The query string of the request decodes to the one parameter `key`, whose value is
the API key. -/
theorem ParseQuery_key (apiKey : Bytes) :
    ParseQuery (ascii "key=" ++ QueryEscape apiKey) = ([(ascii "key", [apiKey])], false) := by
  have hsep := QueryEscape_no_separator apiKey
  have hsplit : splitAmp (ascii "key=" ++ QueryEscape apiKey)
      = [ascii "key=" ++ QueryEscape apiKey] := by
    apply splitAmp_of_no_amp _ _ (by decide)
    intro x hx
    have hx2 : x ∈ ascii "ey=" ++ QueryEscape apiKey := hx
    rcases List.mem_append.mp hx2 with h | h
    · have hall : ∀ y ∈ ascii "ey=", y ≠ ch '&' := by decide
      exact hall x h
    · exact (hsep x h).1
  have hsemi : (ascii "key=" ++ QueryEscape apiKey).contains (ch ';') = false := by
    rw [Bool.eq_false_iff]
    intro hc
    rw [List.contains_iff_exists_mem_beq] at hc
    obtain ⟨x, hx, hxe⟩ := hc
    have hxe2 : ch ';' = x := by simpa using hxe
    subst hxe2
    rcases List.mem_append.mp hx with h | h
    · have hall : ∀ y ∈ ascii "key=", y ≠ ch ';' := by decide
      exact hall _ h rfl
    · exact (hsep _ h).2 rfl
  unfold ParseQuery
  rw [hsplit]
  simp only [List.foldl_cons, List.foldl_nil]
  unfold parseQueryStep
  rw [hsemi]
  simp only [Bool.false_eq_true, if_false]
  rw [if_neg (by intro h; cases h)]
  have hcut : cutByte (ch '=') (ascii "key=" ++ QueryEscape apiKey)
      = (ascii "key", some (QueryEscape apiKey)) := rfl
  simp only [hcut, Option.getD_some, QueryUnescape_QueryEscape]
  rfl

/-! ## encoding/json: which values are refused -/

/-- The type error of a store into a string does not depend on the old contents. -/
theorem storeString_flag (v : JValue) (cur : Bytes) : (storeString v cur).2 = notStringOrNull v := by
  cases v <;> rfl

/-- The type error of a store into an int does not depend on the old contents. -/
theorem storeInt_flag (v : JValue) (cur : Int) : (storeInt v cur).2 = notIntOrNull v := by
  cases v with
  | number lit =>
    simp only [storeInt, notIntOrNull]
    cases h : parseInt64 lit <;> simp
  | _ => rfl

/-- The error flag after decoding the members of an object into a payload. -/
theorem foldl_storePayloadMember_flag (ms : List (Bytes × JValue))
    (st : signInWithPasswordPayload × Bool) :
    (ms.foldl storePayloadMember st).2 =
      (st.2 || ms.any (fun kv => (findField payloadFields kv.1).isSome && notStringOrNull kv.2)) := by
  induction ms generalizing st with
  | nil => simp
  | cons kv rest ih =>
    rw [List.foldl_cons, ih, List.any_cons]
    unfold storePayloadMember
    cases hf : findField payloadFields kv.1 with
    | none => simp
    | some f =>
      by_cases he : f = ascii "email"
      · simp [he, storeString_flag, Bool.or_assoc]
      · simp [he, storeString_flag, Bool.or_assoc]

/-- `storePayload` records a type error exactly on the values of `payloadMismatch`. -/
theorem storePayload_flag (v : JValue) (cur : signInWithPasswordPayload) :
    (storePayload v cur).2 = payloadMismatch v := by
  cases v with
  | object ms =>
    unfold storePayload payloadMismatch
    simp only
    rw [foldl_storePayloadMember_flag]
    simp
  | _ => rfl

/-- The error flag after decoding the members of the object `error`. -/
theorem foldl_storeErrorMember_flag (ms : List (Bytes × JValue))
    (st : errorPayloadError × Bool) :
    (ms.foldl storeErrorMember st).2 = (st.2 || ms.any errorMemberMismatch) := by
  induction ms generalizing st with
  | nil => simp
  | cons kv rest ih =>
    rw [List.foldl_cons, ih, List.any_cons]
    unfold storeErrorMember errorMemberMismatch
    cases hf : findField errorFields kv.1 with
    | none => simp
    | some f =>
      by_cases hc : f = ascii "code"
      · simp [hc, storeInt_flag, Bool.or_assoc]
      · by_cases hm : f = ascii "message"
        · simp only [if_neg hc, if_pos hm, storeString_flag, Bool.or_assoc]
        · simp only [if_neg hc, if_neg hm, Bool.or_assoc]

/-- `storeError` records a type error exactly on the values of `errorMismatch`. -/
theorem storeError_flag (v : JValue) (cur : errorPayloadError) :
    (storeError v cur).2 = errorMismatch v := by
  cases v with
  | object ms =>
    unfold storeError errorMismatch
    simp only
    rw [foldl_storeErrorMember_flag]
    simp
  | _ => rfl

/-- The error flag after decoding the members of an object into an error payload. -/
theorem foldl_storeErrorPayloadMember_flag (ms : List (Bytes × JValue))
    (st : errorPayload × Bool) :
    (ms.foldl storeErrorPayloadMember st).2 =
      (st.2 || ms.any (fun kv => (findField [ascii "error"] kv.1).isSome && errorMismatch kv.2)) := by
  induction ms generalizing st with
  | nil => simp
  | cons kv rest ih =>
    rw [List.foldl_cons, ih, List.any_cons]
    unfold storeErrorPayloadMember
    cases hf : findField [ascii "error"] kv.1 with
    | none => simp
    | some f => simp [storeError_flag, Bool.or_assoc]

/-- `storeErrorPayload` records a type error exactly on the values of
`errorPayloadMismatch`. -/
theorem storeErrorPayload_flag (v : JValue) (cur : errorPayload) :
    (storeErrorPayload v cur).2 = errorPayloadMismatch v := by
  cases v with
  | object ms =>
    unfold storeErrorPayload errorPayloadMismatch
    simp only
    rw [foldl_storeErrorPayloadMember_flag]
    simp
  | _ => rfl

/-- The error that `json.Unmarshal` returns for a payload: a syntax error for text that
is not JSON, a type error for a value of `payloadMismatch`, none otherwise. -/
theorem jsonUnmarshalPayload_snd (data : Bytes) (cur : signInWithPasswordPayload) :
    (jsonUnmarshalPayload data cur).2 =
      match jsonParse data with
      | none => some (GoError.jsonError JsonErrorKind.SyntaxError data)
      | some v =>
        if payloadMismatch v then some (GoError.jsonError JsonErrorKind.UnmarshalTypeError data)
        else none := by
  unfold jsonUnmarshalPayload
  cases jsonParse data with
  | none => rfl
  | some v => simp only [storePayload_flag]

/-- The error that `json.Unmarshal` returns for an error payload. -/
theorem jsonUnmarshalErrorPayload_snd (data : Bytes) (cur : errorPayload) :
    (jsonUnmarshalErrorPayload data cur).2 =
      match jsonParse data with
      | none => some (GoError.jsonError JsonErrorKind.SyntaxError data)
      | some v =>
        if errorPayloadMismatch v then
          some (GoError.jsonError JsonErrorKind.UnmarshalTypeError data)
        else none := by
  unfold jsonUnmarshalErrorPayload
  cases jsonParse data with
  | none => rfl
  | some v => simp only [storeErrorPayload_flag]

/-! ## unicode/utf8: decoding and encoding -/

/-- The classes of first bytes in `utf8.first`. -/
theorem first_spec (s0 : Byte) :
    (s0.val < 0x80 ∧ first s0 = 0xF0) ∨
    (0x80 ≤ s0.val ∧ (s0.val < 0xC2 ∨ 0xF5 ≤ s0.val) ∧ first s0 = 0xF1) ∨
    (0xC2 ≤ s0.val ∧ s0.val ≤ 0xDF ∧ first s0 = 0x02) ∨
    (s0.val = 0xE0 ∧ first s0 = 0x13) ∨
    (0xE1 ≤ s0.val ∧ s0.val ≤ 0xEF ∧ s0.val ≠ 0xED ∧ first s0 = 0x03) ∨
    (s0.val = 0xED ∧ first s0 = 0x23) ∨
    (s0.val = 0xF0 ∧ first s0 = 0x34) ∨
    (0xF1 ≤ s0.val ∧ s0.val ≤ 0xF3 ∧ first s0 = 0x04) ∨
    (s0.val = 0xF4 ∧ first s0 = 0x44) := by
  revert s0; decide

/-- The outcomes of `decodeRune` on a non-empty input: an ASCII byte, an invalid
position, or a well-formed sequence of two, three or four bytes. -/
theorem decodeRune_cases (s0 : Byte) (t : Bytes) :
    (s0.val < 0x80 ∧ decodeRune (s0 :: t) = (s0.val, 1)) ∨
    (0x80 ≤ s0.val ∧ decodeRune (s0 :: t) = (RuneError, 1)) ∨
    (∃ s1 t1, t = s1 :: t1 ∧ 0xC2 ≤ s0.val ∧ s0.val ≤ 0xDF ∧ 0x80 ≤ s1.val ∧ s1.val ≤ 0xBF ∧
      decodeRune (s0 :: t) = ((s0.val % 32) * 64 + s1.val % 64, 2)) ∨
    (∃ s1 s2 t2, t = s1 :: s2 :: t2 ∧ 0xE0 ≤ s0.val ∧ s0.val ≤ 0xEF ∧
      (s0.val = 0xE0 → 0xA0 ≤ s1.val) ∧ (s0.val = 0xED → s1.val ≤ 0x9F) ∧
      0x80 ≤ s1.val ∧ s1.val ≤ 0xBF ∧ 0x80 ≤ s2.val ∧ s2.val ≤ 0xBF ∧
      decodeRune (s0 :: t)
        = ((s0.val % 16) * 4096 + (s1.val % 64) * 64 + s2.val % 64, 3)) ∨
    (∃ s1 s2 s3 t3, t = s1 :: s2 :: s3 :: t3 ∧ 0xF0 ≤ s0.val ∧ s0.val ≤ 0xF4 ∧
      (s0.val = 0xF0 → 0x90 ≤ s1.val) ∧ (s0.val = 0xF4 → s1.val ≤ 0x8F) ∧
      0x80 ≤ s1.val ∧ s1.val ≤ 0xBF ∧ 0x80 ≤ s2.val ∧ s2.val ≤ 0xBF ∧
      0x80 ≤ s3.val ∧ s3.val ≤ 0xBF ∧
      decodeRune (s0 :: t)
        = ((s0.val % 8) * 262144 + (s1.val % 64) * 4096 + (s2.val % 64) * 64
            + s3.val % 64, 4)) := by
  rcases first_spec s0 with ⟨h0, hf⟩ | ⟨h0, _, hf⟩ | ⟨h0, h0', hf⟩ | ⟨h0, hf⟩ | ⟨h0, h0', h0'', hf⟩ |
    ⟨h0, hf⟩ | ⟨h0, hf⟩ | ⟨h0, h0', hf⟩ | ⟨h0, hf⟩
  · left; refine ⟨h0, ?_⟩
    unfold decodeRune; simp [hf]
  · right; left; refine ⟨h0, ?_⟩
    unfold decodeRune; simp [hf]
  · -- two bytes
    cases t with
    | nil => right; left; exact ⟨by omega, by unfold decodeRune; simp [hf, acceptRanges]⟩
    | cons s1 t1 =>
      by_cases hr : 0x80 ≤ s1.val ∧ s1.val ≤ 0xBF
      · right; right; left
        refine ⟨s1, t1, rfl, h0, h0', hr.1, hr.2, ?_⟩
        unfold decodeRune
        simp only [hf, acceptRanges]
        rw [if_neg (by decide), if_neg (by simp), if_neg (by omega), if_pos (by decide)]
      · right; left
        refine ⟨by omega, ?_⟩
        unfold decodeRune
        simp only [hf, acceptRanges]
        rw [if_neg (by decide), if_neg (by simp), if_pos (by omega)]
  · -- three bytes
    cases t with
    | nil => right; left; exact ⟨by omega, by unfold decodeRune; simp [hf, acceptRanges]⟩
    | cons s1 t1 =>
      cases t1 with
      | nil => right; left; exact ⟨by omega, by unfold decodeRune; simp [hf, acceptRanges]⟩
      | cons s2 t2 =>
        by_cases hr : 0xA0 ≤ s1.val ∧ s1.val ≤ 0xBF
        · by_cases hr2 : 0x80 ≤ s2.val ∧ s2.val ≤ 0xBF
          · right; right; right; left
            refine ⟨s1, s2, t2, rfl, by omega, by omega, by omega, by omega, by omega, by omega,
              hr2.1, hr2.2, ?_⟩
            unfold decodeRune
            simp only [hf, acceptRanges]
            rw [if_neg (by decide), if_neg (by simp), if_neg (by omega), if_neg (by decide),
              if_neg (by omega), if_pos (by decide)]
          · right; left
            refine ⟨by omega, ?_⟩
            unfold decodeRune
            simp only [hf, acceptRanges]
            rw [if_neg (by decide), if_neg (by simp), if_neg (by omega), if_neg (by decide),
              if_pos (by omega)]
        · right; left
          refine ⟨by omega, ?_⟩
          unfold decodeRune
          simp only [hf, acceptRanges]
          rw [if_neg (by decide), if_neg (by simp), if_pos (by omega)]
  · -- three bytes
    cases t with
    | nil => right; left; exact ⟨by omega, by unfold decodeRune; simp [hf, acceptRanges]⟩
    | cons s1 t1 =>
      cases t1 with
      | nil => right; left; exact ⟨by omega, by unfold decodeRune; simp [hf, acceptRanges]⟩
      | cons s2 t2 =>
        by_cases hr : 0x80 ≤ s1.val ∧ s1.val ≤ 0xBF
        · by_cases hr2 : 0x80 ≤ s2.val ∧ s2.val ≤ 0xBF
          · right; right; right; left
            refine ⟨s1, s2, t2, rfl, by omega, by omega, by omega, by omega, by omega, by omega,
              hr2.1, hr2.2, ?_⟩
            unfold decodeRune
            simp only [hf, acceptRanges]
            rw [if_neg (by decide), if_neg (by simp), if_neg (by omega), if_neg (by decide),
              if_neg (by omega), if_pos (by decide)]
          · right; left
            refine ⟨by omega, ?_⟩
            unfold decodeRune
            simp only [hf, acceptRanges]
            rw [if_neg (by decide), if_neg (by simp), if_neg (by omega), if_neg (by decide),
              if_pos (by omega)]
        · right; left
          refine ⟨by omega, ?_⟩
          unfold decodeRune
          simp only [hf, acceptRanges]
          rw [if_neg (by decide), if_neg (by simp), if_pos (by omega)]
  · -- three bytes
    cases t with
    | nil => right; left; exact ⟨by omega, by unfold decodeRune; simp [hf, acceptRanges]⟩
    | cons s1 t1 =>
      cases t1 with
      | nil => right; left; exact ⟨by omega, by unfold decodeRune; simp [hf, acceptRanges]⟩
      | cons s2 t2 =>
        by_cases hr : 0x80 ≤ s1.val ∧ s1.val ≤ 0x9F
        · by_cases hr2 : 0x80 ≤ s2.val ∧ s2.val ≤ 0xBF
          · right; right; right; left
            refine ⟨s1, s2, t2, rfl, by omega, by omega, by omega, by omega, by omega, by omega,
              hr2.1, hr2.2, ?_⟩
            unfold decodeRune
            simp only [hf, acceptRanges]
            rw [if_neg (by decide), if_neg (by simp), if_neg (by omega), if_neg (by decide),
              if_neg (by omega), if_pos (by decide)]
          · right; left
            refine ⟨by omega, ?_⟩
            unfold decodeRune
            simp only [hf, acceptRanges]
            rw [if_neg (by decide), if_neg (by simp), if_neg (by omega), if_neg (by decide),
              if_pos (by omega)]
        · right; left
          refine ⟨by omega, ?_⟩
          unfold decodeRune
          simp only [hf, acceptRanges]
          rw [if_neg (by decide), if_neg (by simp), if_pos (by omega)]
  · -- four bytes
    cases t with
    | nil => right; left; exact ⟨by omega, by unfold decodeRune; simp [hf, acceptRanges]⟩
    | cons s1 t1 =>
      cases t1 with
      | nil => right; left; exact ⟨by omega, by unfold decodeRune; simp [hf, acceptRanges]⟩
      | cons s2 t2 =>
        cases t2 with
        | nil => right; left; exact ⟨by omega, by unfold decodeRune; simp [hf, acceptRanges]⟩
        | cons s3 t3 =>
          by_cases hr : 0x90 ≤ s1.val ∧ s1.val ≤ 0xBF
          · by_cases hr2 : 0x80 ≤ s2.val ∧ s2.val ≤ 0xBF
            · by_cases hr3 : 0x80 ≤ s3.val ∧ s3.val ≤ 0xBF
              · right; right; right; right
                refine ⟨s1, s2, s3, t3, rfl, by omega, by omega, by omega, by omega, by omega,
                  by omega, hr2.1, hr2.2, hr3.1, hr3.2, ?_⟩
                unfold decodeRune
                simp only [hf, acceptRanges]
                rw [if_neg (by decide), if_neg (by simp), if_neg (by omega), if_neg (by decide),
                  if_neg (by omega), if_neg (by decide), if_neg (by omega)]
              · right; left
                refine ⟨by omega, ?_⟩
                unfold decodeRune
                simp only [hf, acceptRanges]
                rw [if_neg (by decide), if_neg (by simp), if_neg (by omega), if_neg (by decide),
                  if_neg (by omega), if_neg (by decide), if_pos (by omega)]
            · right; left
              refine ⟨by omega, ?_⟩
              unfold decodeRune
              simp only [hf, acceptRanges]
              rw [if_neg (by decide), if_neg (by simp), if_neg (by omega), if_neg (by decide),
                if_pos (by omega)]
          · right; left
            refine ⟨by omega, ?_⟩
            unfold decodeRune
            simp only [hf, acceptRanges]
            rw [if_neg (by decide), if_neg (by simp), if_pos (by omega)]
  · -- four bytes
    cases t with
    | nil => right; left; exact ⟨by omega, by unfold decodeRune; simp [hf, acceptRanges]⟩
    | cons s1 t1 =>
      cases t1 with
      | nil => right; left; exact ⟨by omega, by unfold decodeRune; simp [hf, acceptRanges]⟩
      | cons s2 t2 =>
        cases t2 with
        | nil => right; left; exact ⟨by omega, by unfold decodeRune; simp [hf, acceptRanges]⟩
        | cons s3 t3 =>
          by_cases hr : 0x80 ≤ s1.val ∧ s1.val ≤ 0xBF
          · by_cases hr2 : 0x80 ≤ s2.val ∧ s2.val ≤ 0xBF
            · by_cases hr3 : 0x80 ≤ s3.val ∧ s3.val ≤ 0xBF
              · right; right; right; right
                refine ⟨s1, s2, s3, t3, rfl, by omega, by omega, by omega, by omega, by omega,
                  by omega, hr2.1, hr2.2, hr3.1, hr3.2, ?_⟩
                unfold decodeRune
                simp only [hf, acceptRanges]
                rw [if_neg (by decide), if_neg (by simp), if_neg (by omega), if_neg (by decide),
                  if_neg (by omega), if_neg (by decide), if_neg (by omega)]
              · right; left
                refine ⟨by omega, ?_⟩
                unfold decodeRune
                simp only [hf, acceptRanges]
                rw [if_neg (by decide), if_neg (by simp), if_neg (by omega), if_neg (by decide),
                  if_neg (by omega), if_neg (by decide), if_pos (by omega)]
            · right; left
              refine ⟨by omega, ?_⟩
              unfold decodeRune
              simp only [hf, acceptRanges]
              rw [if_neg (by decide), if_neg (by simp), if_neg (by omega), if_neg (by decide),
                if_pos (by omega)]
          · right; left
            refine ⟨by omega, ?_⟩
            unfold decodeRune
            simp only [hf, acceptRanges]
            rw [if_neg (by decide), if_neg (by simp), if_pos (by omega)]
  · -- four bytes
    cases t with
    | nil => right; left; exact ⟨by omega, by unfold decodeRune; simp [hf, acceptRanges]⟩
    | cons s1 t1 =>
      cases t1 with
      | nil => right; left; exact ⟨by omega, by unfold decodeRune; simp [hf, acceptRanges]⟩
      | cons s2 t2 =>
        cases t2 with
        | nil => right; left; exact ⟨by omega, by unfold decodeRune; simp [hf, acceptRanges]⟩
        | cons s3 t3 =>
          by_cases hr : 0x80 ≤ s1.val ∧ s1.val ≤ 0x8F
          · by_cases hr2 : 0x80 ≤ s2.val ∧ s2.val ≤ 0xBF
            · by_cases hr3 : 0x80 ≤ s3.val ∧ s3.val ≤ 0xBF
              · right; right; right; right
                refine ⟨s1, s2, s3, t3, rfl, by omega, by omega, by omega, by omega, by omega,
                  by omega, hr2.1, hr2.2, hr3.1, hr3.2, ?_⟩
                unfold decodeRune
                simp only [hf, acceptRanges]
                rw [if_neg (by decide), if_neg (by simp), if_neg (by omega), if_neg (by decide),
                  if_neg (by omega), if_neg (by decide), if_neg (by omega)]
              · right; left
                refine ⟨by omega, ?_⟩
                unfold decodeRune
                simp only [hf, acceptRanges]
                rw [if_neg (by decide), if_neg (by simp), if_neg (by omega), if_neg (by decide),
                  if_neg (by omega), if_neg (by decide), if_pos (by omega)]
            · right; left
              refine ⟨by omega, ?_⟩
              unfold decodeRune
              simp only [hf, acceptRanges]
              rw [if_neg (by decide), if_neg (by simp), if_neg (by omega), if_neg (by decide),
                if_pos (by omega)]
          · right; left
            refine ⟨by omega, ?_⟩
            unfold decodeRune
            simp only [hf, acceptRanges]
            rw [if_neg (by decide), if_neg (by simp), if_pos (by omega)]

/-- A well-formed two-byte sequence decodes whatever follows it. -/
theorem decodeRune_two (s0 s1 : Byte) (X : Bytes) (h0 : 0xC2 ≤ s0.val) (h0' : s0.val ≤ 0xDF)
    (h1 : 0x80 ≤ s1.val) (h1' : s1.val ≤ 0xBF) :
    decodeRune (s0 :: s1 :: X) = ((s0.val % 32) * 64 + s1.val % 64, 2) := by
  rcases first_spec s0 with ⟨g0, hf⟩ | ⟨g0, g1, hf⟩ | ⟨g0, g0', hf⟩ | ⟨g0, hf⟩ | ⟨g0, g0', g0'', hf⟩ |
    ⟨g0, hf⟩ | ⟨g0, hf⟩ | ⟨g0, g0', hf⟩ | ⟨g0, hf⟩
  · exfalso; omega
  · exfalso; omega
  · unfold decodeRune
    simp only [hf, acceptRanges]
    rw [if_neg (by decide), if_neg (by simp), if_neg (by omega), if_pos (by decide)]
  · exfalso; omega
  · exfalso; omega
  · exfalso; omega
  · exfalso; omega
  · exfalso; omega
  · exfalso; omega

/-- A well-formed three-byte sequence decodes whatever follows it. -/
theorem decodeRune_three (s0 s1 s2 : Byte) (X : Bytes) (h0 : 0xE0 ≤ s0.val)
    (h0' : s0.val ≤ 0xEF) (hE0 : s0.val = 0xE0 → 0xA0 ≤ s1.val)
    (hED : s0.val = 0xED → s1.val ≤ 0x9F) (h1 : 0x80 ≤ s1.val) (h1' : s1.val ≤ 0xBF)
    (h2 : 0x80 ≤ s2.val) (h2' : s2.val ≤ 0xBF) :
    decodeRune (s0 :: s1 :: s2 :: X)
      = ((s0.val % 16) * 4096 + (s1.val % 64) * 64 + s2.val % 64, 3) := by
  rcases first_spec s0 with ⟨g0, hf⟩ | ⟨g0, g1, hf⟩ | ⟨g0, g0', hf⟩ | ⟨g0, hf⟩ | ⟨g0, g0', g0'', hf⟩ |
    ⟨g0, hf⟩ | ⟨g0, hf⟩ | ⟨g0, g0', hf⟩ | ⟨g0, hf⟩
  · exfalso; omega
  · exfalso; omega
  · exfalso; omega
  · unfold decodeRune
    simp only [hf, acceptRanges]
    rw [if_neg (by decide), if_neg (by simp), if_neg (by omega), if_neg (by decide),
      if_neg (by omega), if_pos (by decide)]
  · unfold decodeRune
    simp only [hf, acceptRanges]
    rw [if_neg (by decide), if_neg (by simp), if_neg (by omega), if_neg (by decide),
      if_neg (by omega), if_pos (by decide)]
  · unfold decodeRune
    simp only [hf, acceptRanges]
    rw [if_neg (by decide), if_neg (by simp), if_neg (by omega), if_neg (by decide),
      if_neg (by omega), if_pos (by decide)]
  · exfalso; omega
  · exfalso; omega
  · exfalso; omega

/-- A well-formed four-byte sequence decodes whatever follows it. -/
theorem decodeRune_four (s0 s1 s2 s3 : Byte) (X : Bytes) (h0 : 0xF0 ≤ s0.val)
    (h0' : s0.val ≤ 0xF4) (hF0 : s0.val = 0xF0 → 0x90 ≤ s1.val)
    (hF4 : s0.val = 0xF4 → s1.val ≤ 0x8F) (h1 : 0x80 ≤ s1.val) (h1' : s1.val ≤ 0xBF)
    (h2 : 0x80 ≤ s2.val) (h2' : s2.val ≤ 0xBF) (h3 : 0x80 ≤ s3.val) (h3' : s3.val ≤ 0xBF) :
    decodeRune (s0 :: s1 :: s2 :: s3 :: X)
      = ((s0.val % 8) * 262144 + (s1.val % 64) * 4096 + (s2.val % 64) * 64 + s3.val % 64, 4) := by
  rcases first_spec s0 with ⟨g0, hf⟩ | ⟨g0, g1, hf⟩ | ⟨g0, g0', hf⟩ | ⟨g0, hf⟩ | ⟨g0, g0', g0'', hf⟩ |
    ⟨g0, hf⟩ | ⟨g0, hf⟩ | ⟨g0, g0', hf⟩ | ⟨g0, hf⟩
  · exfalso; omega
  · exfalso; omega
  · exfalso; omega
  · exfalso; omega
  · exfalso; omega
  · exfalso; omega
  · unfold decodeRune
    simp only [hf, acceptRanges]
    rw [if_neg (by decide), if_neg (by simp), if_neg (by omega), if_neg (by decide),
      if_neg (by omega), if_neg (by decide), if_neg (by omega)]
  · unfold decodeRune
    simp only [hf, acceptRanges]
    rw [if_neg (by decide), if_neg (by simp), if_neg (by omega), if_neg (by decide),
      if_neg (by omega), if_neg (by decide), if_neg (by omega)]
  · unfold decodeRune
    simp only [hf, acceptRanges]
    rw [if_neg (by decide), if_neg (by simp), if_neg (by omega), if_neg (by decide),
      if_neg (by omega), if_neg (by decide), if_neg (by omega)]

/-- `byte` of the value of a byte. -/
theorem byte_val (c : Byte) : byte c.val = c := by
  apply Fin.ext
  show c.val % 256 = c.val
  exact Nat.mod_eq_of_lt c.isLt

/-- Two bytes are equal when `byte` is applied to a number equal to the value. -/
theorem byte_eq_of_val (n : Nat) (c : Byte) (h : n = c.val) : byte n = c := by
  subst h; exact byte_val c

/-- The width of a decoded rune is at least one and at most the length of the input. -/
theorem decodeRune_size (s0 : Byte) (t : Bytes) :
    1 ≤ (decodeRune (s0 :: t)).2 ∧ (decodeRune (s0 :: t)).2 ≤ (s0 :: t).length := by
  rcases decodeRune_cases s0 t with ⟨_, h⟩ | ⟨_, h⟩ | ⟨s1, t1, rfl, _, _, _, _, h⟩ |
    ⟨s1, s2, t2, rfl, _, _, _, _, _, _, _, _, h⟩ |
    ⟨s1, s2, s3, t3, rfl, _, _, _, _, _, _, _, _, _, _, h⟩ <;> rw [h] <;> simp

/-- Encoding a validly decoded rune gives back the bytes it was decoded from. -/
theorem encodeRune_decodeRune (s0 : Byte) (t : Bytes)
    (hv : decodeRune (s0 :: t) ≠ (RuneError, 1)) :
    encodeRune (decodeRune (s0 :: t)).1 = (s0 :: t).take (decodeRune (s0 :: t)).2 := by
  rcases decodeRune_cases s0 t with ⟨h0, h⟩ | ⟨_, h⟩ | ⟨s1, t1, rfl, a0, a1, b0, b1, h⟩ |
    ⟨s1, s2, t2, rfl, a0, a1, e0, e1, b0, b1, c0, c1, h⟩ |
    ⟨s1, s2, s3, t3, rfl, a0, a1, e0, e1, b0, b1, c0, c1, d0, d1, h⟩
  · rw [h]
    unfold encodeRune
    rw [if_pos (by show s0.val ≤ 0x7F; omega)]
    simp [byte_val]
  · exact absurd h hv
  · rw [h]
    unfold encodeRune
    rw [if_neg (by show ¬ _ ≤ 0x7F; omega), if_pos (by show _ ≤ 0x7FF; omega)]
    simp only [List.take_succ_cons, List.take_zero]
    rw [byte_eq_of_val _ s0 (by omega), byte_eq_of_val _ s1 (by omega)]
  · rw [h]
    unfold encodeRune
    rw [if_neg (by show ¬ _ ≤ 0x7F; omega), if_neg (by show ¬ _ ≤ 0x7FF; omega),
      if_neg (by show ¬ (_ > 0x10FFFF ∨ (0xD800 ≤ _ ∧ _ ≤ 0xDFFF)); omega),
      if_pos (by show _ ≤ 0xFFFF; omega)]
    simp only [List.take_succ_cons, List.take_zero]
    rw [byte_eq_of_val _ s0 (by omega), byte_eq_of_val _ s1 (by omega),
      byte_eq_of_val _ s2 (by omega)]
  · rw [h]
    unfold encodeRune
    rw [if_neg (by show ¬ _ ≤ 0x7F; omega), if_neg (by show ¬ _ ≤ 0x7FF; omega),
      if_neg (by show ¬ (_ > 0x10FFFF ∨ (0xD800 ≤ _ ∧ _ ≤ 0xDFFF)); omega),
      if_neg (by show ¬ _ ≤ 0xFFFF; omega)]
    simp only [List.take_succ_cons, List.take_zero]
    rw [byte_eq_of_val _ s0 (by omega), byte_eq_of_val _ s1 (by omega),
      byte_eq_of_val _ s2 (by omega), byte_eq_of_val _ s3 (by omega)]

/-- A validly decoded rune depends only on the bytes of its encoding. -/
theorem decodeRune_take_append (s0 : Byte) (t Y : Bytes)
    (hv : decodeRune (s0 :: t) ≠ (RuneError, 1)) :
    decodeRune ((s0 :: t).take (decodeRune (s0 :: t)).2 ++ Y) = decodeRune (s0 :: t) := by
  rcases decodeRune_cases s0 t with ⟨h0, h⟩ | ⟨_, h⟩ | ⟨s1, t1, rfl, a0, a1, b0, b1, h⟩ |
    ⟨s1, s2, t2, rfl, a0, a1, e0, e1, b0, b1, c0, c1, h⟩ |
    ⟨s1, s2, s3, t3, rfl, a0, a1, e0, e1, b0, b1, c0, c1, d0, d1, h⟩
  · rw [h]
    simp only [List.take_succ_cons, List.take_zero, List.cons_append, List.nil_append]
    rcases decodeRune_cases s0 Y with ⟨_, h'⟩ | ⟨g, _⟩ | ⟨_, _, _, g, _⟩ |
      ⟨_, _, _, _, g, _⟩ | ⟨_, _, _, _, _, g, _⟩
    · exact h'
    all_goals (exfalso; omega)
  · exact absurd h hv
  · rw [h]
    simp only [List.take_succ_cons, List.take_zero, List.cons_append, List.nil_append]
    exact decodeRune_two s0 s1 Y a0 a1 b0 b1
  · rw [h]
    simp only [List.take_succ_cons, List.take_zero, List.cons_append, List.nil_append]
    exact decodeRune_three s0 s1 s2 Y a0 a1 e0 e1 b0 b1 c0 c1
  · rw [h]
    simp only [List.take_succ_cons, List.take_zero, List.cons_append, List.nil_append]
    exact decodeRune_four s0 s1 s2 s3 Y a0 a1 e0 e1 b0 b1 c0 c1 d0 d1

/-! ## encoding/json: a written string is read back -/

/-- An ASCII byte that is written without escape is an ordinary byte of a JSON string. -/
theorem plain_of_htmlSafeSet (c : Byte) (h : htmlSafeSet c = true) :
    c ≠ ch '"' ∧ c ≠ ch '\\' ∧ ¬ c.val < 0x20 ∧ c.val < 0x80 := by
  revert c; decide

/-- A byte outside ASCII is neither a quote nor a backslash nor a control character. -/
theorem plain_of_high (c : Byte) (h : ¬ c.val < 0x80) :
    c ≠ ch '"' ∧ c ≠ ch '\\' ∧ ¬ c.val < 0x20 := by
  revert c; decide

/-- The ASCII bytes that `appendString` escapes. -/
theorem escaped_ascii_bytes (c : Byte) (hc : c.val < 0x80) (hs : htmlSafeSet c = false) :
    c ∈ ([0, 1, 2, 3, 4, 5, 6, 7, 8, 9, 10, 11, 12, 13, 14, 15, 16, 17, 18, 19, 20, 21, 22,
      23, 24, 25, 26, 27, 28, 29, 30, 31, 34, 38, 60, 62, 92] : List Byte) := by
  revert c; decide

/-- The escape written for an ASCII byte is read back as that byte. -/
theorem unquoteLoop_escapeASCII (c : Byte) (hc : c.val < 0x80) (hs : htmlSafeSet c = false)
    (X : Bytes) : unquoteLoop 0 (escapeASCII c ++ X) = pushBytes [c] (unquoteLoop 0 X) := by
  have hmem := escaped_ascii_bytes c hc hs
  simp only [List.mem_cons, List.mem_singleton, List.not_mem_nil, or_false] at hmem
  rcases hmem with h | h | h | h | h | h | h | h | h | h | h | h | h | h | h | h | h | h | h |
    h | h | h | h | h | h | h | h | h | h | h | h | h | h | h | h | h | h <;> subst h <;> rfl

/-- Passing over the bytes of a rune or escape that has been read. -/
theorem unquoteLoop_skip (m : Nat) (t Y : Bytes) (h : m ≤ t.length) :
    unquoteLoop m (t.take m ++ Y) = unquoteLoop 0 Y := by
  induction m generalizing t with
  | zero => rfl
  | succ k ih =>
    cases t with
    | nil => simp at h
    | cons a t' =>
      have h' : k ≤ t'.length := by simpa using h
      exact ih t' h'

/-- Reading an ordinary ASCII byte of a string. -/
theorem unquoteLoop_plain (c : Byte) (X : Bytes) (h1 : c ≠ ch '"') (h2 : c ≠ ch '\\')
    (h3 : ¬ c.val < 0x20) (h4 : c.val < 0x80) :
    unquoteLoop 0 (c :: X) = pushBytes [c] (unquoteLoop 0 X) := by
  conv_lhs => unfold unquoteLoop
  rw [if_neg h1, if_neg h2, if_neg h3, if_pos h4]

/-- Reading a byte outside ASCII of a string. -/
theorem unquoteLoop_high (c : Byte) (X : Bytes) (h : ¬ c.val < 0x80) :
    unquoteLoop 0 (c :: X) = pushBytes (encodeRune (decodeRune (c :: X)).1)
      (unquoteLoop ((decodeRune (c :: X)).2 - 1) X) := by
  obtain ⟨h1, h2, h3⟩ := plain_of_high c h
  conv_lhs => unfold unquoteLoop
  rw [if_neg h1, if_neg h2, if_neg h3, if_neg h]

/-- What `appendString` writes between the quotes is read back, up to the closing quote,
as the string coerced to valid UTF-8. -/
theorem unquoteLoop_appendStringLoop (s : Bytes) (rest : Bytes) (k : Nat) :
    unquoteLoop 0 (appendStringLoop k s ++ ch '"' :: rest) = some (coerceLoop k s, rest) := by
  induction s generalizing k with
  | nil => cases k <;> rfl
  | cons c t ih =>
    cases k with
    | succ k => exact ih k
    | zero =>
      by_cases hlow : c.val < 0x80
      · have hdec : decodeRune (c :: t) = (c.val, 1) := by
          rcases decodeRune_cases c t with ⟨_, h⟩ | ⟨g, _⟩ | ⟨_, _, _, g, _⟩ |
            ⟨_, _, _, _, g, _⟩ | ⟨_, _, _, _, _, g, _⟩
          · exact h
          all_goals (exfalso; omega)
        have hco : coerceLoop 0 (c :: t) = c :: coerceLoop 0 t := by
          conv_lhs => unfold coerceLoop
          rw [if_neg (by rw [hdec]; intro h; injection h with h1 _; simp [RuneError] at h1; omega),
            hdec]
          rfl
        rw [hco]
        by_cases hsafe : htmlSafeSet c = true
        · have happ : appendStringLoop 0 (c :: t) = c :: appendStringLoop 0 t := by
            conv_lhs => unfold appendStringLoop
            rw [if_pos hlow, if_pos hsafe]
          obtain ⟨h1, h2, h3, h4⟩ := plain_of_htmlSafeSet c hsafe
          rw [happ, List.cons_append, unquoteLoop_plain c _ h1 h2 h3 h4, ih 0]
          rfl
        · have happ : appendStringLoop 0 (c :: t) = escapeASCII c ++ appendStringLoop 0 t := by
            conv_lhs => unfold appendStringLoop
            rw [if_pos hlow, if_neg hsafe]
          rw [happ, List.append_assoc,
            unquoteLoop_escapeASCII c hlow (by simpa using hsafe), ih 0]
          rfl
      · by_cases hinv : decodeRune (c :: t) = (RuneError, 1)
        · have happ : appendStringLoop 0 (c :: t) = ascii "\\ufffd" ++ appendStringLoop 0 t := by
            conv_lhs => unfold appendStringLoop
            rw [if_neg hlow, if_pos hinv]
          have hco : coerceLoop 0 (c :: t) = encodeRune RuneError ++ coerceLoop 0 t := by
            conv_lhs => unfold coerceLoop
            rw [if_pos hinv]
          have hesc : ∀ X, unquoteLoop 0 (ascii "\\ufffd" ++ X)
              = pushBytes (encodeRune RuneError) (unquoteLoop 0 X) := fun X => rfl
          rw [happ, hco, List.append_assoc, hesc, ih 0]
          rfl
        · obtain ⟨hsz1, hsz2⟩ := decodeRune_size c t
          have hco : coerceLoop 0 (c :: t) = (c :: t).take (decodeRune (c :: t)).2 ++
              coerceLoop ((decodeRune (c :: t)).2 - 1) t := by
            conv_lhs => unfold coerceLoop
            rw [if_neg hinv]
          have henc := encodeRune_decodeRune c t hinv
          rw [hco]
          by_cases hsep : (decodeRune (c :: t)).1 = 0x2028 ∨ (decodeRune (c :: t)).1 = 0x2029
          · have happ : appendStringLoop 0 (c :: t) =
                ascii "\\u202" ++ hex ((decodeRune (c :: t)).1 % 16) ::
                  appendStringLoop ((decodeRune (c :: t)).2 - 1) t := by
              conv_lhs => unfold appendStringLoop
              rw [if_neg hlow, if_neg hinv, if_pos hsep]
            rw [happ, ← henc]
            rcases hsep with h | h
            · rw [h]
              have hesc : ∀ X, unquoteLoop 0 ((ascii "\\u202" ++ hex (0x2028 % 16) :: X))
                  = pushBytes (encodeRune 0x2028) (unquoteLoop 0 X) := fun X => rfl
              rw [List.append_assoc, List.cons_append, hesc, ih]
              rfl
            · rw [h]
              have hesc : ∀ X, unquoteLoop 0 ((ascii "\\u202" ++ hex (0x2029 % 16) :: X))
                  = pushBytes (encodeRune 0x2029) (unquoteLoop 0 X) := fun X => rfl
              rw [List.append_assoc, List.cons_append, hesc, ih]
              rfl
          · have happ : appendStringLoop 0 (c :: t) =
                (c :: t).take (decodeRune (c :: t)).2 ++
                  appendStringLoop ((decodeRune (c :: t)).2 - 1) t := by
              conv_lhs => unfold appendStringLoop
              rw [if_neg hlow, if_neg hinv, if_neg hsep]
            have htake : (c :: t).take (decodeRune (c :: t)).2
                = c :: t.take ((decodeRune (c :: t)).2 - 1) := by
              obtain ⟨n, hn⟩ : ∃ n, (decodeRune (c :: t)).2 = n + 1 := ⟨_, (Nat.sub_add_cancel hsz1).symm⟩
              rw [hn]; rfl
            have hdec2 := decodeRune_take_append c t
              (appendStringLoop ((decodeRune (c :: t)).2 - 1) t ++ ch '"' :: rest) hinv
            rw [htake, List.cons_append] at hdec2
            rw [happ, List.append_assoc, htake, List.cons_append, unquoteLoop_high c _ hlow,
              hdec2, unquoteLoop_skip _ _ _ (by simp at hsz2; omega), ih, henc, htake]
            rfl

/-- A string literal written by `appendString` is read back as the string coerced to valid
UTF-8. -/
theorem parseValue_appendString (n d : Nat) (s rest : Bytes) :
    parseValue (n + 1) d (appendString s ++ rest)
      = PResult.ok (JValue.string (coerceUTF8 s)) rest := by
  have h1 : ∀ W, parseValue (n + 1) d (ch '"' :: W) =
      (match unquoteLoop 0 W with
       | none => PResult.syntaxError
       | some (str, r) => PResult.ok (JValue.string str) r) := fun W => rfl
  have h2 : appendString s ++ rest = ch '"' :: (appendStringLoop 0 s ++ ch '"' :: rest) := by
    simp [appendString]
  rw [h2, h1, unquoteLoop_appendStringLoop]
  rfl

/-- The last member of the request body. -/
theorem parseMembers_returnSecureToken (n d : Nat) (b : Bool) (rest : Bytes) :
    parseMembers (n + 2) d
        (ascii "\"returnSecureToken\":" ++ (if b then ascii "true" else ascii "false") ++
          ascii "\x7d" ++ rest)
      = PResult.ok [(ascii "returnSecureToken", JValue.bool b)] rest := by
  cases b <;> rfl

/-- Reading a member whose value is a string written by `appendString`, followed by
further members. -/
theorem parseMembers_string_member (n d : Nat) (key : Bytes) (s more : Bytes)
    (ms : List (Bytes × JValue)) (rest : Bytes)
    (hkey : ∀ W, unquoteLoop 0 (key ++ ch '"' :: W) = some (key, W))
    (hmore : parseMembers (n + 1) d more = PResult.ok ms rest) :
    parseMembers (n + 2) d
        (ch '"' :: key ++ ch '"' :: ch ':' :: (appendString s ++ ch ',' :: more))
      = PResult.ok ((key, JValue.string (coerceUTF8 s)) :: ms) rest := by
  have h1 : ∀ W, parseMembers (n + 2) d (ch '"' :: W) =
      (match unquoteLoop 0 W with
        | none => PResult.syntaxError
        | some (key, r) =>
          match skipWS r with
          | [] => PResult.syntaxError
          | c2 :: t2 =>
            if c2 = ch ':' then
              match parseValue (n + 1) d t2 with
              | PResult.syntaxError => PResult.syntaxError
              | PResult.outOfFuel => PResult.outOfFuel
              | PResult.ok v r2 =>
                match skipWS r2 with
                | [] => PResult.syntaxError
                | c3 :: t3 =>
                  if c3 = ch ',' then
                    match parseMembers (n + 1) d t3 with
                    | PResult.ok ms r3 => PResult.ok ((key, v) :: ms) r3
                    | PResult.syntaxError => PResult.syntaxError
                    | PResult.outOfFuel => PResult.outOfFuel
                  else if c3 = ch '}' then PResult.ok [(key, v)] t3
                  else PResult.syntaxError
            else PResult.syntaxError) := fun W => rfl
  have h2 : ch '"' :: key ++ ch '"' :: ch ':' :: (appendString s ++ ch ',' :: more)
      = ch '"' :: (key ++ ch '"' :: (ch ':' :: (appendString s ++ ch ',' :: more))) := by
    simp
  rw [h2, h1, hkey]
  have h3 : skipWS (ch ':' :: (appendString s ++ ch ',' :: more))
      = ch ':' :: (appendString s ++ ch ',' :: more) := rfl
  simp only [h3, if_true]
  rw [parseValue_appendString]
  have h4 : skipWS (ch ',' :: more) = ch ',' :: more := rfl
  simp only [h4, if_true, hmore]

/-- The body of the request is one JSON object with the three members `email`,
`password` and `returnSecureToken`; the two strings are the inputs coerced to valid
UTF-8. -/
theorem jsonParse_jsonMarshal (input : signInWithPasswordInput) :
    jsonParse (jsonMarshal input).1 = some (JValue.object
      [(ascii "email", JValue.string (coerceUTF8 input.Email)),
       (ascii "password", JValue.string (coerceUTF8 input.Password)),
       (ascii "returnSecureToken", JValue.bool input.ReturnSecureToken)]) := by
  obtain ⟨e, p, b⟩ := input
  have hform : (jsonMarshal ⟨e, p, b⟩).1 = ch '\x7b' ::
      (ch '"' :: ascii "email" ++ ch '"' :: ch ':' :: (appendString e ++ ch ',' ::
        (ch '"' :: ascii "password" ++ ch '"' :: ch ':' :: (appendString p ++ ch ',' ::
          (ascii "\"returnSecureToken\":" ++ (if b then ascii "true" else ascii "false") ++
            ascii "\x7d" ++ []))))) := by
    simp [jsonMarshal, ascii]
  have hm : ∀ n, parseMembers (n + 4) 1
      (ch '"' :: ascii "email" ++ ch '"' :: ch ':' :: (appendString e ++ ch ',' ::
        (ch '"' :: ascii "password" ++ ch '"' :: ch ':' :: (appendString p ++ ch ',' ::
          (ascii "\"returnSecureToken\":" ++ (if b then ascii "true" else ascii "false") ++
            ascii "\x7d" ++ [])))))
      = PResult.ok [(ascii "email", JValue.string (coerceUTF8 e)),
          (ascii "password", JValue.string (coerceUTF8 p)),
          (ascii "returnSecureToken", JValue.bool b)] [] := by
    intro n
    apply parseMembers_string_member (n + 2) 1 (ascii "email") e _ _ [] (fun W => rfl)
    apply parseMembers_string_member (n + 1) 1 (ascii "password") p _ _ [] (fun W => rfl)
    exact parseMembers_returnSecureToken n 1 b []
  have hv : ∀ n W, parseValue (n + 5) 0 (ch '\x7b' :: ch '"' :: W) =
      (match parseMembers (n + 4) 1 (ch '"' :: W) with
        | PResult.ok ms r => PResult.ok (JValue.object ms) r
        | PResult.syntaxError => PResult.syntaxError
        | PResult.outOfFuel => PResult.outOfFuel) := fun n W => rfl
  have hlen : ∃ n, 2 * (jsonMarshal ⟨e, p, b⟩).1.length + 1 = n + 5 := by
    refine ⟨2 * (jsonMarshal ⟨e, p, b⟩).1.length - 4, ?_⟩
    have : 2 ≤ (jsonMarshal ⟨e, p, b⟩).1.length := by
      rw [hform]; simp
    omega
  obtain ⟨n, hn⟩ := hlen
  unfold jsonParse
  rw [hn, hform]
  have hcons : (ch '"' :: ascii "email" ++ ch '"' :: ch ':' :: (appendString e ++ ch ',' ::
        (ch '"' :: ascii "password" ++ ch '"' :: ch ':' :: (appendString p ++ ch ',' ::
          (ascii "\"returnSecureToken\":" ++ (if b then ascii "true" else ascii "false") ++
            ascii "\x7d" ++ [])))))
      = ch '"' :: (ascii "email" ++ ch '"' :: ch ':' :: (appendString e ++ ch ',' ::
        (ch '"' :: ascii "password" ++ ch '"' :: ch ':' :: (appendString p ++ ch ',' ::
          (ascii "\"returnSecureToken\":" ++ (if b then ascii "true" else ascii "false") ++
            ascii "\x7d" ++ []))))) := rfl
  rw [hcons, hv, ← hcons, hm]
  rfl

/-- On valid UTF-8 the coercion changes nothing. -/
theorem coerceLoop_of_valid (s : Bytes) (k : Nat) (h : validFrom k s = true) :
    s.take k ++ coerceLoop k s = s := by
  induction s generalizing k with
  | nil => cases k <;> rfl
  | cons c t ih =>
    cases k with
    | succ k =>
      have h' : validFrom k t = true := h
      have := ih k h'
      show c :: (t.take k ++ coerceLoop k t) = c :: t
      rw [this]
    | zero =>
      have hdef : validFrom 0 (c :: t) =
          (if decodeRune (c :: t) = (RuneError, 1) then false
           else validFrom ((decodeRune (c :: t)).2 - 1) t) := by
        conv_lhs => unfold validFrom
      rw [hdef] at h
      by_cases hinv : decodeRune (c :: t) = (RuneError, 1)
      · rw [if_pos hinv] at h; exact absurd h (by decide)
      · rw [if_neg hinv] at h
        have hco : coerceLoop 0 (c :: t) = (c :: t).take (decodeRune (c :: t)).2 ++
            coerceLoop ((decodeRune (c :: t)).2 - 1) t := by
          conv_lhs => unfold coerceLoop
          rw [if_neg hinv]
        obtain ⟨hsz1, _⟩ := decodeRune_size c t
        have htake : (c :: t).take (decodeRune (c :: t)).2
            = c :: t.take ((decodeRune (c :: t)).2 - 1) := by
          obtain ⟨n, hn⟩ : ∃ n, (decodeRune (c :: t)).2 = n + 1 :=
            ⟨_, (Nat.sub_add_cancel hsz1).symm⟩
          rw [hn]; rfl
        rw [hco, htake]
        show c :: (t.take ((decodeRune (c :: t)).2 - 1) ++
          coerceLoop ((decodeRune (c :: t)).2 - 1) t) = c :: t
        rw [ih _ h]

/-- A valid UTF-8 string is its own coercion. -/
theorem coerceUTF8_of_valid (s : Bytes) (h : ValidString s = true) : coerceUTF8 s = s := by
  have := coerceLoop_of_valid s 0 h
  simpa [coerceUTF8] using this

/-! ## encoding/json: the success payload as a JSON encoder writes it -/

/-- Reading the last member of an object when its value is a string written by
`appendString`. -/
theorem parseMembers_last_string_member (n d : Nat) (key : Bytes) (s rest : Bytes)
    (hkey : ∀ W, unquoteLoop 0 (key ++ ch '"' :: W) = some (key, W)) :
    parseMembers (n + 2) d
        (ch '"' :: key ++ ch '"' :: ch ':' :: (appendString s ++ ch '\x7d' :: rest))
      = PResult.ok [(key, JValue.string (coerceUTF8 s))] rest := by
  have h1 : ∀ W, parseMembers (n + 2) d (ch '"' :: W) =
      (match unquoteLoop 0 W with
        | none => PResult.syntaxError
        | some (key, r) =>
          match skipWS r with
          | [] => PResult.syntaxError
          | c2 :: t2 =>
            if c2 = ch ':' then
              match parseValue (n + 1) d t2 with
              | PResult.syntaxError => PResult.syntaxError
              | PResult.outOfFuel => PResult.outOfFuel
              | PResult.ok v r2 =>
                match skipWS r2 with
                | [] => PResult.syntaxError
                | c3 :: t3 =>
                  if c3 = ch ',' then
                    match parseMembers (n + 1) d t3 with
                    | PResult.ok ms r3 => PResult.ok ((key, v) :: ms) r3
                    | PResult.syntaxError => PResult.syntaxError
                    | PResult.outOfFuel => PResult.outOfFuel
                  else if c3 = ch '}' then PResult.ok [(key, v)] t3
                  else PResult.syntaxError
            else PResult.syntaxError) := fun W => rfl
  have h2 : ch '"' :: key ++ ch '"' :: ch ':' :: (appendString s ++ ch '\x7d' :: rest)
      = ch '"' :: (key ++ ch '"' :: (ch ':' :: (appendString s ++ ch '\x7d' :: rest))) := by
    simp
  rw [h2, h1, hkey]
  have h3 : skipWS (ch ':' :: (appendString s ++ ch '\x7d' :: rest))
      = ch ':' :: (appendString s ++ ch '\x7d' :: rest) := rfl
  simp only [h3, if_true]
  rw [parseValue_appendString]
  have h4 : skipWS (ch '\x7d' :: rest) = ch '\x7d' :: rest := rfl
  simp only [h4]
  rfl

/-- The success payload with email `E` and token `T`, written as a JSON encoder with the
string syntax of `appendString` writes it, is accepted by `json.Unmarshal` and decodes
to `E` and `T` coerced to valid UTF-8. -/
theorem jsonUnmarshalPayload_canonical (E T : Bytes) :
    jsonUnmarshalPayload
        (ascii "\x7b\"email\":" ++ appendString E ++ ascii ",\"idToken\":" ++ appendString T ++
          ascii "\x7d") ⟨[], []⟩
      = (⟨coerceUTF8 E, coerceUTF8 T⟩, none) := by
  have hform : ascii "\x7b\"email\":" ++ appendString E ++ ascii ",\"idToken\":" ++
        appendString T ++ ascii "\x7d" = ch '\x7b' ::
      (ch '"' :: ascii "email" ++ ch '"' :: ch ':' :: (appendString E ++ ch ',' ::
        (ch '"' :: ascii "idToken" ++ ch '"' :: ch ':' :: (appendString T ++ ch '\x7d' :: [])))) := by
    simp [ascii]
  have hm : ∀ n, parseMembers (n + 3) 1
      (ch '"' :: ascii "email" ++ ch '"' :: ch ':' :: (appendString E ++ ch ',' ::
        (ch '"' :: ascii "idToken" ++ ch '"' :: ch ':' :: (appendString T ++ ch '\x7d' :: []))))
      = PResult.ok [(ascii "email", JValue.string (coerceUTF8 E)),
          (ascii "idToken", JValue.string (coerceUTF8 T))] [] := by
    intro n
    apply parseMembers_string_member (n + 1) 1 (ascii "email") E _ _ [] (fun W => rfl)
    exact parseMembers_last_string_member n 1 (ascii "idToken") T [] (fun W => rfl)
  have hv : ∀ n W, parseValue (n + 4) 0 (ch '\x7b' :: ch '"' :: W) =
      (match parseMembers (n + 3) 1 (ch '"' :: W) with
        | PResult.ok ms r => PResult.ok (JValue.object ms) r
        | PResult.syntaxError => PResult.syntaxError
        | PResult.outOfFuel => PResult.outOfFuel) := fun n W => rfl
  have hparse : jsonParse (ascii "\x7b\"email\":" ++ appendString E ++ ascii ",\"idToken\":" ++
        appendString T ++ ascii "\x7d") = some (JValue.object
          [(ascii "email", JValue.string (coerceUTF8 E)),
           (ascii "idToken", JValue.string (coerceUTF8 T))]) := by
    have hlen : ∃ n, 2 * (ascii "\x7b\"email\":" ++ appendString E ++ ascii ",\"idToken\":" ++
        appendString T ++ ascii "\x7d").length + 1 = n + 4 := by
      refine ⟨2 * (ascii "\x7b\"email\":" ++ appendString E ++ ascii ",\"idToken\":" ++
        appendString T ++ ascii "\x7d").length - 3, ?_⟩
      have : 2 ≤ (ascii "\x7b\"email\":" ++ appendString E ++ ascii ",\"idToken\":" ++
          appendString T ++ ascii "\x7d").length := by
        rw [hform]; simp
      omega
    obtain ⟨n, hn⟩ := hlen
    unfold jsonParse
    rw [hn, hform]
    have hcons : (ch '"' :: ascii "email" ++ ch '"' :: ch ':' :: (appendString E ++ ch ',' ::
        (ch '"' :: ascii "idToken" ++ ch '"' :: ch ':' :: (appendString T ++ ch '\x7d' :: []))))
      = ch '"' :: (ascii "email" ++ ch '"' :: ch ':' :: (appendString E ++ ch ',' ::
        (ch '"' :: ascii "idToken" ++ ch '"' :: ch ':' :: (appendString T ++ ch '\x7d' :: [])))) :=
      rfl
    rw [hcons, hv, ← hcons, hm]
    rfl
  unfold jsonUnmarshalPayload
  rw [hparse]
  rfl

/-- The error payload with code 400 and message `M`, written in the string syntax of
`appendString`, is accepted by `json.Unmarshal` and decodes to the message `M` coerced
to valid UTF-8. -/
theorem jsonUnmarshalErrorPayload_canonical (M : Bytes) :
    jsonUnmarshalErrorPayload
        (ascii "\x7b\"error\":\x7b\"code\":400,\"message\":" ++ appendString M ++ ascii "\x7d\x7d")
        ⟨⟨0, []⟩⟩
      = (⟨⟨400, coerceUTF8 M⟩⟩, none) := by
  have hform : ascii "\x7b\"error\":\x7b\"code\":400,\"message\":" ++ appendString M ++
        ascii "\x7d\x7d" =
      ascii "\x7b\"error\":\x7b\"code\":400," ++
        (ch '"' :: ascii "message" ++ ch '"' :: ch ':' ::
          (appendString M ++ ch '\x7d' :: [ch '\x7d'])) := by
    simp [ascii]
  have hinner : ∀ n, parseMembers (n + 2) 2
      (ch '"' :: ascii "message" ++ ch '"' :: ch ':' ::
        (appendString M ++ ch '\x7d' :: [ch '\x7d']))
      = PResult.ok [(ascii "message", JValue.string (coerceUTF8 M))] [ch '\x7d'] :=
    fun n => parseMembers_last_string_member n 2 (ascii "message") M [ch '\x7d'] (fun W => rfl)
  have houter : ∀ n W, parseValue (n + 6) 0 (ascii "\x7b\"error\":\x7b\"code\":400," ++ W) =
      (match parseMembers (n + 2) 2 W with
        | PResult.ok ms r =>
          (match skipWS r with
            | [] => PResult.syntaxError
            | c3 :: t3 =>
              if c3 = ch ',' then
                match parseMembers (n + 4) 1 t3 with
                | PResult.ok ms2 r3 =>
                  PResult.ok (JValue.object ((ascii "error",
                    JValue.object ((ascii "code", JValue.number (ascii "400")) :: ms)) :: ms2)) r3
                | PResult.syntaxError => PResult.syntaxError
                | PResult.outOfFuel => PResult.outOfFuel
              else if c3 = ch '\x7d' then
                PResult.ok (JValue.object [(ascii "error",
                  JValue.object ((ascii "code", JValue.number (ascii "400")) :: ms))]) t3
              else PResult.syntaxError)
        | PResult.syntaxError => PResult.syntaxError
        | PResult.outOfFuel => PResult.outOfFuel) := by
    intro n W
    show parseValue (n + 6) 0 (ascii "\x7b\"error\":\x7b\"code\":400," ++ W) = _
    have e1 : parseValue (n + 6) 0 (ascii "\x7b\"error\":\x7b\"code\":400," ++ W) =
        (match parseMembers (n + 5) 1 (ascii "\"error\":\x7b\"code\":400," ++ W) with
          | PResult.ok ms r => PResult.ok (JValue.object ms) r
          | PResult.syntaxError => PResult.syntaxError
          | PResult.outOfFuel => PResult.outOfFuel) := rfl
    have e2 : parseMembers (n + 5) 1 (ascii "\"error\":\x7b\"code\":400," ++ W) =
        (match parseValue (n + 4) 1 (ascii "\x7b\"code\":400," ++ W) with
          | PResult.syntaxError => PResult.syntaxError
          | PResult.outOfFuel => PResult.outOfFuel
          | PResult.ok v r2 =>
            match skipWS r2 with
            | [] => PResult.syntaxError
            | c3 :: t3 =>
              if c3 = ch ',' then
                match parseMembers (n + 4) 1 t3 with
                | PResult.ok ms r3 => PResult.ok ((ascii "error", v) :: ms) r3
                | PResult.syntaxError => PResult.syntaxError
                | PResult.outOfFuel => PResult.outOfFuel
              else if c3 = ch '\x7d' then PResult.ok [(ascii "error", v)] t3
              else PResult.syntaxError) := rfl
    have e3 : parseValue (n + 4) 1 (ascii "\x7b\"code\":400," ++ W) =
        (match parseMembers (n + 3) 2 (ascii "\"code\":400," ++ W) with
          | PResult.ok ms r => PResult.ok (JValue.object ms) r
          | PResult.syntaxError => PResult.syntaxError
          | PResult.outOfFuel => PResult.outOfFuel) := rfl
    have e4 : parseMembers (n + 3) 2 (ascii "\"code\":400," ++ W) =
        (match parseMembers (n + 2) 2 W with
          | PResult.ok ms r3 =>
            PResult.ok ((ascii "code", JValue.number (ascii "400")) :: ms) r3
          | PResult.syntaxError => PResult.syntaxError
          | PResult.outOfFuel => PResult.outOfFuel) := rfl
    rw [e1, e2, e3, e4]
    cases parseMembers (n + 2) 2 W with
    | ok ms r =>
      simp only
      cases skipWS r with
      | nil => rfl
      | cons c3 t3 =>
        simp only
        by_cases h1 : c3 = ch ','
        · simp only [if_pos h1]
          cases parseMembers (n + 4) 1 t3 <;> rfl
        · simp only [if_neg h1]
          by_cases h2 : c3 = ch '\x7d'
          · simp only [if_pos h2]
          · simp only [if_neg h2]
    | syntaxError => rfl
    | outOfFuel => rfl
  have hparse : jsonParse (ascii "\x7b\"error\":\x7b\"code\":400,\"message\":" ++
        appendString M ++ ascii "\x7d\x7d") = some (JValue.object [(ascii "error",
          JValue.object [(ascii "code", JValue.number (ascii "400")),
            (ascii "message", JValue.string (coerceUTF8 M))])]) := by
    have hlen : ∃ n, 2 * (ascii "\x7b\"error\":\x7b\"code\":400,\"message\":" ++
        appendString M ++ ascii "\x7d\x7d").length + 1 = n + 6 := by
      refine ⟨2 * (ascii "\x7b\"error\":\x7b\"code\":400,\"message\":" ++
        appendString M ++ ascii "\x7d\x7d").length - 5, ?_⟩
      have : 3 ≤ (ascii "\x7b\"error\":\x7b\"code\":400,\"message\":" ++
          appendString M ++ ascii "\x7d\x7d").length := by
        rw [hform]; simp [ascii]
      omega
    obtain ⟨n, hn⟩ := hlen
    unfold jsonParse
    rw [hn, hform, houter, hinner]
    rfl
  unfold jsonUnmarshalErrorPayload
  rw [hparse]
  rfl

/-! ## encoding/json: the recursion budget of the parser is never exhausted -/

/-- Removing white space does not lengthen the input. -/
theorem skipWS_length_le (s : Bytes) : (skipWS s).length ≤ s.length := by
  induction s with
  | nil => exact Nat.le_refl _
  | cons c t ih =>
    unfold skipWS
    split
    · exact Nat.le_succ_of_le ih
    · exact Nat.le_refl _

/-- What is left after white space, when it starts with `c`. -/
theorem length_of_skipWS_eq_cons (s : Bytes) (c : Byte) (t : Bytes) (h : skipWS s = c :: t) :
    t.length + 1 ≤ s.length := by
  have := skipWS_length_le s
  rw [h] at this
  exact this

/-- The result of `pushBytes` has the rest of its argument. -/
theorem pushBytes_eq_some (bs : Bytes) (o : Option (Bytes × Bytes)) (str r : Bytes)
    (h : pushBytes bs o = some (str, r)) : ∃ str', o = some (str', r) := by
  cases o with
  | none => cases h
  | some p =>
    obtain ⟨a, b⟩ := p
    simp only [pushBytes, Option.some.injEq, Prod.mk.injEq] at h
    exact ⟨a, by rw [h.2]⟩

/-- Reading a string consumes its closing quote: the rest is shorter than the input. -/
theorem unquoteLoop_length (t : Bytes) (k : Nat) (str r : Bytes)
    (h : unquoteLoop k t = some (str, r)) : r.length + k + 1 ≤ t.length := by
  induction t generalizing k str with
  | nil => cases k <;> cases h
  | cons c t ih =>
    cases k with
    | succ k =>
      have h' : unquoteLoop k t = some (str, r) := h
      have := ih k str h'
      simp only [List.length_cons]
      omega
    | zero =>
      have key : ∀ j bs, pushBytes bs (unquoteLoop j t) = some (str, r) →
          r.length + 0 + 1 ≤ (c :: t).length := by
        intro j bs hp
        obtain ⟨str', hs⟩ := pushBytes_eq_some _ _ _ _ hp
        have := ih j str' hs
        simp only [List.length_cons]
        omega
      unfold unquoteLoop at h
      split at h
      · simp only [Option.some.injEq, Prod.mk.injEq] at h
        rw [← h.2]; simp
      · split at h
        · split at h
          · cases h
          · split at h
            · split at h
              · cases h
              · split at h
                · split at h
                  · exact key _ _ h
                  · split at h
                    · exact key _ _ h
                    · exact key _ _ h
                · exact key _ _ h
            · split at h
              · cases h
              · exact key _ _ h
        · split at h
          · cases h
          · split at h
            · exact key _ _ h
            · exact key _ _ h

/-- The digits and the rest make up the input. -/
theorem spanDigits_length (s : Bytes) : (spanDigits s).2.length ≤ s.length := by
  induction s with
  | nil => exact Nat.le_refl _
  | cons c t ih =>
    unfold spanDigits
    split
    · exact Nat.le_succ_of_le ih
    · exact Nat.le_refl _

/-- The integer part of a number takes at least one byte. -/
theorem scanInt_length (s i r : Bytes) (h : scanInt s = some (i, r)) : r.length < s.length := by
  cases s with
  | nil => cases h
  | cons c t =>
    have hdef : scanInt (c :: t) =
        (if c = ch '0' then some ([c], t)
         else if isDigit c then some (c :: (spanDigits t).1, (spanDigits t).2)
         else none) := rfl
    rw [hdef] at h
    have := spanDigits_length t
    split at h
    · simp only [Option.some.injEq, Prod.mk.injEq] at h
      rw [← h.2]; simp
    · split at h
      · simp only [Option.some.injEq, Prod.mk.injEq] at h
        rw [← h.2]
        simp only [List.length_cons]; omega
      · cases h

/-- The fraction of a number does not lengthen the input. -/
theorem scanFrac_length (s f r : Bytes) (h : scanFrac s = some (f, r)) : r.length ≤ s.length := by
  cases s with
  | nil =>
    have hdef : scanFrac [] = some ([], []) := rfl
    rw [hdef] at h
    simp only [Option.some.injEq, Prod.mk.injEq] at h
    rw [← h.2]
  | cons c t =>
    have hdef : scanFrac (c :: t) =
        (if c = ch '.' then
          if (spanDigits t).1 = [] then none else some (c :: (spanDigits t).1, (spanDigits t).2)
         else some ([], c :: t)) := rfl
    rw [hdef] at h
    have := spanDigits_length t
    split at h
    · split at h
      · cases h
      · simp only [Option.some.injEq, Prod.mk.injEq] at h
        rw [← h.2]
        simp only [List.length_cons]; omega
    · simp only [Option.some.injEq, Prod.mk.injEq] at h
      rw [← h.2]

/-- The exponent of a number does not lengthen the input. -/
theorem scanExp_length (s e r : Bytes) (h : scanExp s = some (e, r)) : r.length ≤ s.length := by
  cases s with
  | nil =>
    have hdef : scanExp [] = some ([], []) := rfl
    rw [hdef] at h
    simp only [Option.some.injEq, Prod.mk.injEq] at h
    rw [← h.2]
  | cons c t =>
    cases t with
    | nil =>
      have hdef : scanExp [c] =
          (if c = ch 'e' ∨ c = ch 'E' then none else some ([], [c])) := rfl
      rw [hdef] at h
      split at h
      · cases h
      · simp only [Option.some.injEq, Prod.mk.injEq] at h
        rw [← h.2]
    | cons s0 t1 =>
      have hdef : scanExp (c :: s0 :: t1) =
          (if c = ch 'e' ∨ c = ch 'E' then
            if s0 = ch '+' ∨ s0 = ch '-' then
              if (spanDigits t1).1 = [] then none
              else some (c :: s0 :: (spanDigits t1).1, (spanDigits t1).2)
            else if (spanDigits (s0 :: t1)).1 = [] then none
            else some (c :: (spanDigits (s0 :: t1)).1, (spanDigits (s0 :: t1)).2)
           else some ([], c :: s0 :: t1)) := rfl
      rw [hdef] at h
      have h1 := spanDigits_length t1
      have h2 := spanDigits_length (s0 :: t1)
      simp only [List.length_cons] at h2
      split at h
      · split at h
        · split at h
          · cases h
          · simp only [Option.some.injEq, Prod.mk.injEq] at h
            rw [← h.2]
            simp only [List.length_cons]; omega
        · split at h
          · cases h
          · simp only [Option.some.injEq, Prod.mk.injEq] at h
            rw [← h.2]
            simp only [List.length_cons]; omega
      · simp only [Option.some.injEq, Prod.mk.injEq] at h
        rw [← h.2]

/-- A number takes at least one byte. -/
theorem scanNumber_length (s lit r : Bytes) (h : scanNumber s = some (lit, r)) :
    r.length < s.length := by
  have h4 : (if startsWith s [ch '-'] = true then List.drop 1 s else s).length ≤ s.length := by
    split
    · simp
    · exact Nat.le_refl _
  unfold scanNumber at h
  dsimp only at h
  cases hi : scanInt (if startsWith s [ch '-'] = true then List.drop 1 s else s) with
  | none => rw [hi] at h; cases h
  | some p1 =>
    obtain ⟨i, r1⟩ := p1
    rw [hi] at h
    dsimp only at h
    cases hf : scanFrac r1 with
    | none => rw [hf] at h; cases h
    | some p2 =>
      obtain ⟨f, r2⟩ := p2
      rw [hf] at h
      dsimp only at h
      cases he : scanExp r2 with
      | none => rw [he] at h; cases h
      | some p3 =>
        obtain ⟨e, r3⟩ := p3
        rw [he] at h
        simp only [Option.some.injEq, Prod.mk.injEq] at h
        rw [← h.2]
        have h1 := scanInt_length _ _ _ hi
        have h2 := scanFrac_length _ _ _ hf
        have h3 := scanExp_length _ _ _ he
        omega

/-- A syntax error meets the fuel statement. -/
theorem good_syntaxError {α : Type} (len : Nat) (enough : Prop) :
    (enough → (PResult.syntaxError : PResult α) ≠ PResult.outOfFuel) ∧
    (∀ (v : α) r, (PResult.syntaxError : PResult α) = PResult.ok v r → r.length < len) :=
  ⟨fun _ h => PResult.noConfusion h, fun _ _ h => PResult.noConfusion h⟩

/-- A value meets the fuel statement when its rest is shorter than the input. -/
theorem good_ok {α : Type} (a : α) (rest : Bytes) (len : Nat) (enough : Prop)
    (h : rest.length < len) :
    (enough → PResult.ok a rest ≠ PResult.outOfFuel) ∧
    (∀ (v : α) r, PResult.ok a rest = PResult.ok v r → r.length < len) := by
  refine ⟨fun _ h => PResult.noConfusion h, fun v r hr => ?_⟩
  injection hr with _ h2
  rw [← h2]; exact h

/-- An exhausted budget meets the fuel statement when the budget was not enough. -/
theorem good_outOfFuel {α : Type} (len : Nat) (enough : Prop) (h : ¬ enough) :
    (enough → (PResult.outOfFuel : PResult α) ≠ PResult.outOfFuel) ∧
    (∀ (v : α) r, (PResult.outOfFuel : PResult α) = PResult.ok v r → r.length < len) :=
  ⟨fun he => absurd he h, fun _ _ h => PResult.noConfusion h⟩

/-- With a budget of twice the length of the input (and one or two more), the parsing
functions do not run out of budget; and a value they read leaves less input than there
was. -/
theorem parse_fuel (n : Nat) : ∀ (d : Nat) (s : Bytes),
    ((2 * s.length + 1 ≤ n → parseValue n d s ≠ PResult.outOfFuel) ∧
      (∀ v r, parseValue n d s = PResult.ok v r → r.length < s.length)) ∧
    ((2 * s.length + 2 ≤ n → parseElems n d s ≠ PResult.outOfFuel) ∧
      (∀ vs r, parseElems n d s = PResult.ok vs r → r.length < s.length)) ∧
    ((2 * s.length + 2 ≤ n → parseMembers n d s ≠ PResult.outOfFuel) ∧
      (∀ ms r, parseMembers n d s = PResult.ok ms r → r.length < s.length)) := by
  induction n with
  | zero =>
    intro d s
    exact ⟨good_outOfFuel _ _ (by omega), good_outOfFuel _ _ (by omega),
      good_outOfFuel _ _ (by omega)⟩
  | succ n ih =>
    intro d s
    refine ⟨?_, ?_, ?_⟩
    · -- parseValue
      have hws := skipWS_length_le s
      unfold parseValue
      split
      · exact good_syntaxError _ _
      · rename_i c t hst
        rw [hst] at hws
        simp only [List.length_cons] at hws
        split
        · split
          · exact good_syntaxError _ _
          · split
            · exact good_syntaxError _ _
            · rename_i c2 t2 hst2
              have hws2 := length_of_skipWS_eq_cons _ _ _ hst2
              split
              · exact good_ok _ _ _ _ (by omega)
              · have ihm := (ih (d + 1) (c2 :: t2)).2.2
                simp only [List.length_cons] at ihm
                split
                · rename_i ms r hm
                  exact good_ok _ _ _ _ (by have := ihm.2 ms r hm; omega)
                · exact good_syntaxError _ _
                · rename_i hm
                  exact good_outOfFuel _ _ (fun hn => ihm.1 (by omega) hm)
        · split
          · split
            · exact good_syntaxError _ _
            · split
              · exact good_syntaxError _ _
              · rename_i c2 t2 hst2
                have hws2 := length_of_skipWS_eq_cons _ _ _ hst2
                split
                · exact good_ok _ _ _ _ (by omega)
                · have ihm := (ih (d + 1) (c2 :: t2)).2.1
                  simp only [List.length_cons] at ihm
                  split
                  · rename_i ms r hm
                    exact good_ok _ _ _ _ (by have := ihm.2 ms r hm; omega)
                  · exact good_syntaxError _ _
                  · rename_i hm
                    exact good_outOfFuel _ _ (fun hn => ihm.1 (by omega) hm)
          · split
            · split
              · exact good_syntaxError _ _
              · rename_i str r hu
                have := unquoteLoop_length _ _ _ _ hu
                exact good_ok _ _ _ _ (by omega)
            · split
              · split
                · exact good_syntaxError _ _
                · rename_i lit r hnum
                  have := scanNumber_length _ _ _ hnum
                  simp only [List.length_cons] at this
                  exact good_ok _ _ _ _ (by omega)
              · have hd3 : (t.drop 3).length ≤ t.length := by simp
                have hd4 : (t.drop 4).length ≤ t.length := by simp
                split
                · exact good_ok _ _ _ _ (by omega)
                · split
                  · exact good_ok _ _ _ _ (by omega)
                  · split
                    · exact good_ok _ _ _ _ (by omega)
                    · exact good_syntaxError _ _
    · -- parseElems
      unfold parseElems
      have ihv := (ih d s).1
      split
      · exact good_syntaxError _ _
      · rename_i hv
        exact good_outOfFuel _ _ (fun hn => ihv.1 (by omega) hv)
      · rename_i v r hv
        have hr := ihv.2 v r hv
        split
        · exact good_syntaxError _ _
        · rename_i c t hst
          have hws := length_of_skipWS_eq_cons _ _ _ hst
          split
          · have ihe := (ih d t).2.1
            split
            · rename_i vs r2 he
              exact good_ok _ _ _ _ (by have := ihe.2 vs r2 he; omega)
            · exact good_syntaxError _ _
            · rename_i he
              exact good_outOfFuel _ _ (fun hn => ihe.1 (by omega) he)
          · split
            · exact good_ok _ _ _ _ (by omega)
            · exact good_syntaxError _ _
    · -- parseMembers
      unfold parseMembers
      have hws := skipWS_length_le s
      split
      · exact good_syntaxError _ _
      · rename_i c t hst
        rw [hst] at hws
        simp only [List.length_cons] at hws
        split
        · split
          · exact good_syntaxError _ _
          · rename_i key r hu
            have hur := unquoteLoop_length _ _ _ _ hu
            split
            · exact good_syntaxError _ _
            · rename_i c2 t2 hst2
              have hws2 := length_of_skipWS_eq_cons _ _ _ hst2
              split
              · have ihv := (ih d t2).1
                split
                · exact good_syntaxError _ _
                · rename_i hv
                  exact good_outOfFuel _ _ (fun hn => ihv.1 (by omega) hv)
                · rename_i v r2 hv
                  have hr2 := ihv.2 v r2 hv
                  split
                  · exact good_syntaxError _ _
                  · rename_i c3 t3 hst3
                    have hws3 := length_of_skipWS_eq_cons _ _ _ hst3
                    split
                    · have ihm := (ih d t3).2.2
                      split
                      · rename_i ms r3 hm
                        exact good_ok _ _ _ _ (by have := ihm.2 ms r3 hm; omega)
                      · exact good_syntaxError _ _
                      · rename_i hm
                        exact good_outOfFuel _ _ (fun hn => ihm.1 (by omega) hm)
                    · split
                      · exact good_ok _ _ _ _ (by omega)
                      · exact good_syntaxError _ _
              · exact good_syntaxError _ _
        · exact good_syntaxError _ _

/-- `jsonParse` never gives up for lack of recursion budget: `none` is a syntax error. -/
theorem jsonParse_budget (data : Bytes) :
    parseValue (2 * data.length + 1) 0 data ≠ PResult.outOfFuel :=
  (parse_fuel (2 * data.length + 1) 0 data).1.1 (Nat.le_refl _)

/-! ## The complete behaviour on a response that was read -/

/-- `signInWithPassword` hands `sentRequest` to `client.Do` and depends on the network
only through the answer to it. -/
theorem signInWithPassword_eq_send (env : Env) (input : signInWithPasswordInput) :
    signInWithPassword env input =
      match env.Do (sentRequest env.apiKey input) with
      | Except.error err => (none, some err)
      | Except.ok resp => readResponse resp := rfl

/-- Status 200: the body is refused with the error of `json.Unmarshal`, or it yields the
payload that `storePayload` fills from the zero value. -/
theorem readResponse_status_ok (resp : Response) (body : Bytes)
    (hstatus : resp.StatusCode = 200) (hread : resp.Body.ReadAll = (body, none))
    (hclose : resp.Body.Close = none) :
    readResponse resp =
      match jsonParse body with
      | none => (none, some (GoError.jsonError JsonErrorKind.SyntaxError body))
      | some v =>
        if payloadMismatch v then
          (none, some (GoError.jsonError JsonErrorKind.UnmarshalTypeError body))
        else (some (storePayload v ⟨[], []⟩).1, none) := by
  rcases hu : jsonUnmarshalPayload body ⟨[], []⟩ with ⟨q, _ | e⟩
  · rw [readResponse_ok resp body q hstatus hread hclose hu]
    have h2 := jsonUnmarshalPayload_snd body ⟨[], []⟩
    rw [hu] at h2
    unfold jsonUnmarshalPayload at hu
    cases hp : jsonParse body with
    | none => rw [hp] at h2; cases h2
    | some v =>
      rw [hp] at h2 hu
      by_cases hm : payloadMismatch v = true
      · simp only [hm, if_true] at h2; cases h2
      · simp only [hm, Bool.false_eq_true, if_false, Prod.mk.injEq] at hu ⊢
        rw [hu.1]
        simp
  · rw [readResponse_ok_rejected resp body q e hstatus hread hclose hu]
    have h2 := jsonUnmarshalPayload_snd body ⟨[], []⟩
    rw [hu] at h2
    cases hp : jsonParse body with
    | none => rw [hp] at h2; simp only at h2 ⊢; rw [h2]
    | some v =>
      rw [hp] at h2
      by_cases hm : payloadMismatch v = true
      · simp only [hm, if_true] at h2 ⊢; rw [h2]
      · simp only [hm, Bool.false_eq_true, if_false] at h2; cases h2

/-- A status other than 200: the body is refused with the error of `json.Unmarshal`, or
the error is `errors.New` of the message that `storeErrorPayload` fills from the zero
value. -/
theorem readResponse_status_other (resp : Response) (body : Bytes)
    (hstatus : resp.StatusCode ≠ 200) (hread : resp.Body.ReadAll = (body, none))
    (hclose : resp.Body.Close = none) :
    readResponse resp =
      match jsonParse body with
      | none => (none, some (GoError.jsonError JsonErrorKind.SyntaxError body))
      | some v =>
        if errorPayloadMismatch v then
          (none, some (GoError.jsonError JsonErrorKind.UnmarshalTypeError body))
        else
          (none, some (GoError.errorString (storeErrorPayload v ⟨⟨0, []⟩⟩).1.Error.Message)) := by
  rcases hu : jsonUnmarshalErrorPayload body ⟨⟨0, []⟩⟩ with ⟨q, _ | e⟩
  · rw [readResponse_failure resp body q hstatus hread hclose hu]
    have h2 := jsonUnmarshalErrorPayload_snd body ⟨⟨0, []⟩⟩
    rw [hu] at h2
    unfold jsonUnmarshalErrorPayload at hu
    cases hp : jsonParse body with
    | none => rw [hp] at h2; cases h2
    | some v =>
      rw [hp] at h2 hu
      by_cases hm : errorPayloadMismatch v = true
      · simp only [hm, if_true] at h2; cases h2
      · simp only [hm, Bool.false_eq_true, if_false, Prod.mk.injEq] at hu ⊢
        rw [hu.1]
        simp
  · rw [readResponse_failure_rejected resp body q e hstatus hread hclose hu]
    have h2 := jsonUnmarshalErrorPayload_snd body ⟨⟨0, []⟩⟩
    rw [hu] at h2
    cases hp : jsonParse body with
    | none => rw [hp] at h2; simp only at h2 ⊢; rw [h2]
    | some v =>
      rw [hp] at h2
      by_cases hm : errorPayloadMismatch v = true
      · simp only [hm, if_true] at h2 ⊢; rw [h2]
      · simp only [hm, Bool.false_eq_true, if_false] at h2; cases h2

/-! ## The claims about the responses -/

/-- C1: for a response with status 200 whose body is a well-formed success payload
containing `idToken = T` (that is: `json.Unmarshal` accepts the body and the decoded
`IDToken` is `T`), `signInWithPassword` returns a payload with `IDToken = T` and a nil
error, and `main` writes exactly `Bearer T` (no newline, nothing else) to standard
output. In particular this holds for the body `{"email":E,"idToken":T}` written in the
string syntax of a JSON encoder, for every `E` and every valid UTF-8 `T`. -/
theorem success_response_prints_bearer_token (env : Env) (resp : Response) (body : Bytes)
    (hdo : env.Do (sentRequest env.apiKey ⟨env.email, env.password, true⟩) = Except.ok resp)
    (hstatus : resp.StatusCode = 200)
    (hread : resp.Body.ReadAll = (body, none))
    (hclose : resp.Body.Close = none) :
    (∀ (p : signInWithPasswordPayload) (T : Bytes),
      jsonUnmarshalPayload body ⟨[], []⟩ = (p, none) → p.IDToken = T →
      (∃ q, signInWithPassword env ⟨env.email, env.password, true⟩ = (some q, none) ∧
        q.IDToken = T) ∧
      main env = Outcome.exit (ascii "Bearer " ++ T)) ∧
    (∀ (E T : Bytes), ValidString T = true →
      body = ascii "\x7b\"email\":" ++ appendString E ++ ascii ",\"idToken\":" ++
        appendString T ++ ascii "\x7d" →
      (∃ q, signInWithPassword env ⟨env.email, env.password, true⟩ = (some q, none) ∧
        q.IDToken = T) ∧
      main env = Outcome.exit (ascii "Bearer " ++ T)) := by
  have key : ∀ (p : signInWithPasswordPayload) (T : Bytes),
      jsonUnmarshalPayload body ⟨[], []⟩ = (p, none) → p.IDToken = T →
      (∃ q, signInWithPassword env ⟨env.email, env.password, true⟩ = (some q, none) ∧
        q.IDToken = T) ∧
      main env = Outcome.exit (ascii "Bearer " ++ T) := by
    intro p T hbody hT
    have h : signInWithPassword env ⟨env.email, env.password, true⟩ = (some p, none) := by
      rw [signInWithPassword_of_response env _ resp hdo]
      exact readResponse_ok resp body p hstatus hread hclose hbody
    refine ⟨⟨p, h, hT⟩, ?_⟩
    rw [main_of_payload env p h, hT]
  refine ⟨key, ?_⟩
  intro E T hT hbody
  apply key ⟨coerceUTF8 E, coerceUTF8 T⟩ T
  · rw [hbody]; exact jsonUnmarshalPayload_canonical E T
  · exact coerceUTF8_of_valid T hT

/-- C1, on the example of the specification: the mock server answers 200 with
`{"email":"a@b.com","idToken":"XYZ"}` and the program prints `Bearer XYZ`. -/
theorem success_response_prints_bearer_token_witness :
    jsonUnmarshalPayload (ascii "\x7b\"email\":\"a@b.com\",\"idToken\":\"XYZ\"\x7d") ⟨[], []⟩
      = (⟨ascii "a@b.com", ascii "XYZ"⟩, none) ∧
    main (respondingEnv (ascii "K") (ascii "a@b.com") (ascii "pw") 200
      (ascii "\x7b\"email\":\"a@b.com\",\"idToken\":\"XYZ\"\x7d"))
      = Outcome.exit (ascii "Bearer XYZ") :=
  ⟨by decide,
   ((success_response_prints_bearer_token
      (respondingEnv (ascii "K") (ascii "a@b.com") (ascii "pw") 200
        (ascii "\x7b\"email\":\"a@b.com\",\"idToken\":\"XYZ\"\x7d"))
      _ _ rfl rfl rfl rfl).1 ⟨ascii "a@b.com", ascii "XYZ"⟩ (ascii "XYZ") (by decide) rfl).2⟩

/-- C2: for a response whose status is not 200 and whose body is an error payload with
`error.message = M` (that is: `json.Unmarshal` accepts the body and the decoded
`Error.Message` is `M`), `signInWithPassword` returns no payload and the error
`errors.New(M)`, whose text is `M`, and `main` writes exactly
`failed signInWithPassword(). Reason M` followed by a newline. In particular this holds
for the body `{"error":{"code":400,"message":M}}` written in the string syntax of a JSON
encoder, for every valid UTF-8 `M`. -/
theorem error_response_prints_embedded_message (env : Env) (resp : Response) (body : Bytes)
    (hdo : env.Do (sentRequest env.apiKey ⟨env.email, env.password, true⟩) = Except.ok resp)
    (hstatus : resp.StatusCode ≠ 200)
    (hread : resp.Body.ReadAll = (body, none))
    (hclose : resp.Body.Close = none) :
    (∀ (p : errorPayload) (M : Bytes),
      jsonUnmarshalErrorPayload body ⟨⟨0, []⟩⟩ = (p, none) → p.Error.Message = M →
      signInWithPassword env ⟨env.email, env.password, true⟩
        = (none, some (GoError.errorString M)) ∧
      (GoError.errorString M).Error env.libText = M ∧
      main env = Outcome.exit
        (ascii "failed signInWithPassword(). Reason " ++ M ++ ascii "\n")) ∧
    (∀ (M : Bytes), ValidString M = true →
      body = ascii "\x7b\"error\":\x7b\"code\":400,\"message\":" ++ appendString M ++
        ascii "\x7d\x7d" →
      signInWithPassword env ⟨env.email, env.password, true⟩
        = (none, some (GoError.errorString M)) ∧
      main env = Outcome.exit
        (ascii "failed signInWithPassword(). Reason " ++ M ++ ascii "\n")) := by
  have key : ∀ (p : errorPayload) (M : Bytes),
      jsonUnmarshalErrorPayload body ⟨⟨0, []⟩⟩ = (p, none) → p.Error.Message = M →
      signInWithPassword env ⟨env.email, env.password, true⟩
        = (none, some (GoError.errorString M)) ∧
      (GoError.errorString M).Error env.libText = M ∧
      main env = Outcome.exit
        (ascii "failed signInWithPassword(). Reason " ++ M ++ ascii "\n") := by
    intro p M hbody hM
    have h : signInWithPassword env ⟨env.email, env.password, true⟩
        = (none, some (GoError.errorString M)) := by
      rw [signInWithPassword_of_response env _ resp hdo, ← hM]
      exact readResponse_failure resp body p hstatus hread hclose hbody
    refine ⟨h, rfl, ?_⟩
    rw [main_of_error env _ h]
    rfl
  refine ⟨key, ?_⟩
  intro M hM hbody
  have h := key ⟨⟨400, coerceUTF8 M⟩⟩ M
    (by rw [hbody]; exact jsonUnmarshalErrorPayload_canonical M) (coerceUTF8_of_valid M hM)
  exact ⟨h.1, h.2.2⟩

/-- C2, on an answer of the identity service: status 400 with message
`INVALID_PASSWORD`. -/
theorem error_response_prints_embedded_message_witness :
    (400 : Int) ≠ 200 ∧
    jsonUnmarshalErrorPayload (ascii "\x7b\"error\":\x7b\"code\":400,\"message\":\"INVALID_PASSWORD\",\"errors\":[\x7b\"message\":\"INVALID_PASSWORD\",\"domain\":\"global\",\"reason\":\"invalid\"\x7d]\x7d\x7d") ⟨⟨0, []⟩⟩
      = (⟨⟨400, ascii "INVALID_PASSWORD"⟩⟩, none) ∧
    main (respondingEnv (ascii "K") (ascii "a@b.com") (ascii "pw") 400
      (ascii "\x7b\"error\":\x7b\"code\":400,\"message\":\"INVALID_PASSWORD\",\"errors\":[\x7b\"message\":\"INVALID_PASSWORD\",\"domain\":\"global\",\"reason\":\"invalid\"\x7d]\x7d\x7d"))
      = Outcome.exit (ascii "failed signInWithPassword(). Reason INVALID_PASSWORD\n") :=
  ⟨by decide, by decide,
   ((error_response_prints_embedded_message
      (respondingEnv (ascii "K") (ascii "a@b.com") (ascii "pw") 400
        (ascii "\x7b\"error\":\x7b\"code\":400,\"message\":\"INVALID_PASSWORD\",\"errors\":[\x7b\"message\":\"INVALID_PASSWORD\",\"domain\":\"global\",\"reason\":\"invalid\"\x7d]\x7d\x7d"))
      _ _ rfl (by decide) rfl rfl).1 ⟨⟨400, ascii "INVALID_PASSWORD"⟩⟩ (ascii "INVALID_PASSWORD")
      (by decide) rfl).2.2⟩

/-- C3 fails as stated: with status 200 and the body `{}`, valid JSON without `idToken`,
`json.Unmarshal` reports no error; `signInWithPassword` returns a payload (with empty
fields) and a nil error, and `main` prints a `Bearer ` line. -/
theorem empty_object_with_status_ok_is_accepted :
    signInWithPassword (respondingEnv (ascii "K") (ascii "a@b.com") (ascii "pw") 200 (ascii "\x7b\x7d"))
      ⟨ascii "a@b.com", ascii "pw", true⟩ = (some ⟨[], []⟩, none) ∧
    main (respondingEnv (ascii "K") (ascii "a@b.com") (ascii "pw") 200 (ascii "\x7b\x7d"))
      = Outcome.exit (ascii "Bearer ") := by
  constructor <;> decide

/-- C3 as amended: for a response with status 200 whose body `json.Unmarshal` rejects
(text that is not one JSON value; or a JSON value of `payloadMismatch`: neither an
object nor `null`, or an object with a member selecting `email` or `idToken` that is
neither a string nor `null`), `signInWithPassword` returns no payload and the error of
`json.Unmarshal`, a `SyntaxError` in the first case and an `UnmarshalTypeError` in the
second; `main` prints the failure line, which is not a `Bearer` line. -/
theorem rejected_success_body_reports_json_error (env : Env) (resp : Response)
    (body : Bytes)
    (hdo : env.Do (sentRequest env.apiKey ⟨env.email, env.password, true⟩) = Except.ok resp)
    (hstatus : resp.StatusCode = 200)
    (hread : resp.Body.ReadAll = (body, none))
    (hclose : resp.Body.Close = none)
    (hrej : jsonParse body = none ∨ ∃ v, jsonParse body = some v ∧ payloadMismatch v = true) :
    ∃ kind,
      kind = (if (jsonParse body).isNone then JsonErrorKind.SyntaxError
              else JsonErrorKind.UnmarshalTypeError) ∧
      signInWithPassword env ⟨env.email, env.password, true⟩
        = (none, some (GoError.jsonError kind body)) ∧
      main env = Outcome.exit (ascii "failed signInWithPassword(). Reason " ++
        env.libText (GoError.jsonError kind body) ++ ascii "\n") ∧
      startsWith (ascii "failed signInWithPassword(). Reason " ++
        env.libText (GoError.jsonError kind body) ++ ascii "\n") (ascii "Bearer") = false := by
  have hsnd := jsonUnmarshalPayload_snd body ⟨[], []⟩
  have hk : (jsonUnmarshalPayload body ⟨[], []⟩).2 =
      some (GoError.jsonError (if (jsonParse body).isNone then JsonErrorKind.SyntaxError
        else JsonErrorKind.UnmarshalTypeError) body) := by
    rcases hrej with hp | ⟨v, hp, hm⟩
    · rw [hsnd, hp]; rfl
    · rw [hsnd, hp]
      simp only [hm, if_true]
      rfl
  have h : signInWithPassword env ⟨env.email, env.password, true⟩ =
      (none, some (GoError.jsonError (if (jsonParse body).isNone then JsonErrorKind.SyntaxError
        else JsonErrorKind.UnmarshalTypeError) body)) := by
    rw [signInWithPassword_of_response env _ resp hdo]
    exact readResponse_ok_rejected resp body (jsonUnmarshalPayload body ⟨[], []⟩).1 _
      hstatus hread hclose (Prod.ext rfl hk)
  exact ⟨_, rfl, h, main_of_error env _ h, rfl⟩

/-- C3 as amended, on a body whose `idToken` is a number. -/
theorem rejected_success_body_reports_json_error_witness :
    (jsonParse (ascii "\x7b\"idToken\":5\x7d") = none ∨
      ∃ v, jsonParse (ascii "\x7b\"idToken\":5\x7d") = some v ∧ payloadMismatch v = true) ∧
    (∃ kind,
      kind = (if (jsonParse (ascii "\x7b\"idToken\":5\x7d")).isNone then JsonErrorKind.SyntaxError
              else JsonErrorKind.UnmarshalTypeError) ∧
      signInWithPassword
          (respondingEnv (ascii "K") (ascii "a@b.com") (ascii "pw") 200 (ascii "\x7b\"idToken\":5\x7d"))
          ⟨ascii "a@b.com", ascii "pw", true⟩
        = (none, some (GoError.jsonError kind (ascii "\x7b\"idToken\":5\x7d"))) ∧
      main (respondingEnv (ascii "K") (ascii "a@b.com") (ascii "pw") 200 (ascii "\x7b\"idToken\":5\x7d"))
        = Outcome.exit (ascii "failed signInWithPassword(). Reason " ++
            ascii "json: error" ++ ascii "\n") ∧
      startsWith (ascii "failed signInWithPassword(). Reason " ++
            ascii "json: error" ++ ascii "\n") (ascii "Bearer") = false) :=
  ⟨Or.inr ⟨JValue.object [(ascii "idToken", JValue.number (ascii "5"))], rfl, rfl⟩,
   rejected_success_body_reports_json_error
     (respondingEnv (ascii "K") (ascii "a@b.com") (ascii "pw") 200 (ascii "\x7b\"idToken\":5\x7d"))
     _ (ascii "\x7b\"idToken\":5\x7d") rfl rfl rfl rfl
     (Or.inr ⟨JValue.object [(ascii "idToken", JValue.number (ascii "5"))], rfl, rfl⟩)⟩

/-- C4 fails as stated: with status 400 and the body `{}`, valid JSON without
`error.message`, `json.Unmarshal` reports no error; the error that `signInWithPassword`
returns is `errors.New("")`, built from the (empty) embedded message, and not a JSON
error. -/
theorem empty_object_with_error_status_yields_empty_message :
    signInWithPassword (respondingEnv (ascii "K") (ascii "a@b.com") (ascii "pw") 400 (ascii "\x7b\x7d"))
      ⟨ascii "a@b.com", ascii "pw", true⟩ = (none, some (GoError.errorString [])) ∧
    main (respondingEnv (ascii "K") (ascii "a@b.com") (ascii "pw") 400 (ascii "\x7b\x7d"))
      = Outcome.exit (ascii "failed signInWithPassword(). Reason \n") := by
  constructor <;> decide

/-- C4 as amended: for a response whose status is not 200 and whose body `json.Unmarshal`
rejects (text that is not one JSON value; or a JSON value of `errorPayloadMismatch`:
neither an object nor `null`, or an object in which a member of the error schema has the
wrong JSON type), `signInWithPassword` returns no payload and the error of
`json.Unmarshal`, a `SyntaxError` in the first case and an `UnmarshalTypeError` in the
second, and not an error built from an embedded message. -/
theorem rejected_error_body_reports_json_error (env : Env) (resp : Response)
    (body : Bytes)
    (hdo : env.Do (sentRequest env.apiKey ⟨env.email, env.password, true⟩) = Except.ok resp)
    (hstatus : resp.StatusCode ≠ 200)
    (hread : resp.Body.ReadAll = (body, none))
    (hclose : resp.Body.Close = none)
    (hrej : jsonParse body = none ∨
      ∃ v, jsonParse body = some v ∧ errorPayloadMismatch v = true) :
    ∃ kind,
      kind = (if (jsonParse body).isNone then JsonErrorKind.SyntaxError
              else JsonErrorKind.UnmarshalTypeError) ∧
      signInWithPassword env ⟨env.email, env.password, true⟩
        = (none, some (GoError.jsonError kind body)) ∧
      (∀ M, GoError.jsonError kind body ≠ GoError.errorString M) ∧
      main env = Outcome.exit (ascii "failed signInWithPassword(). Reason " ++
        env.libText (GoError.jsonError kind body) ++ ascii "\n") := by
  have hsnd := jsonUnmarshalErrorPayload_snd body ⟨⟨0, []⟩⟩
  have hk : (jsonUnmarshalErrorPayload body ⟨⟨0, []⟩⟩).2 =
      some (GoError.jsonError (if (jsonParse body).isNone then JsonErrorKind.SyntaxError
        else JsonErrorKind.UnmarshalTypeError) body) := by
    rcases hrej with hp | ⟨v, hp, hm⟩
    · rw [hsnd, hp]; rfl
    · rw [hsnd, hp]
      simp only [hm, if_true]
      rfl
  have h : signInWithPassword env ⟨env.email, env.password, true⟩ =
      (none, some (GoError.jsonError (if (jsonParse body).isNone then JsonErrorKind.SyntaxError
        else JsonErrorKind.UnmarshalTypeError) body)) := by
    rw [signInWithPassword_of_response env _ resp hdo]
    exact readResponse_failure_rejected resp body (jsonUnmarshalErrorPayload body ⟨⟨0, []⟩⟩).1 _
      hstatus hread hclose (Prod.ext rfl hk)
  exact ⟨_, rfl, h, fun M hM => GoError.noConfusion hM, main_of_error env _ h⟩

/-- C4 as amended, on a body that is not JSON (the HTML error page of a proxy). -/
theorem rejected_error_body_reports_json_error_witness :
    (502 : Int) ≠ 200 ∧
    (jsonParse (ascii "<html>") = none ∨
      ∃ v, jsonParse (ascii "<html>") = some v ∧ errorPayloadMismatch v = true) ∧
    (∃ kind,
      kind = (if (jsonParse (ascii "<html>")).isNone then JsonErrorKind.SyntaxError
              else JsonErrorKind.UnmarshalTypeError) ∧
      signInWithPassword
          (respondingEnv (ascii "K") (ascii "a@b.com") (ascii "pw") 502 (ascii "<html>"))
          ⟨ascii "a@b.com", ascii "pw", true⟩
        = (none, some (GoError.jsonError kind (ascii "<html>"))) ∧
      (∀ M, GoError.jsonError kind (ascii "<html>") ≠ GoError.errorString M) ∧
      main (respondingEnv (ascii "K") (ascii "a@b.com") (ascii "pw") 502 (ascii "<html>"))
        = Outcome.exit (ascii "failed signInWithPassword(). Reason " ++
            ascii "json: error" ++ ascii "\n")) :=
  ⟨by decide, Or.inl rfl,
   rejected_error_body_reports_json_error
     (respondingEnv (ascii "K") (ascii "a@b.com") (ascii "pw") 502 (ascii "<html>"))
     _ (ascii "<html>") rfl (by decide) rfl rfl (Or.inl rfl)⟩

/-- C8: when the one HTTP call fails at the transport level with the error `e` (the send
returns `e`, or reading the response body returns `e`, or closing it returns `e`),
`signInWithPassword` returns no payload and exactly `e`, and `main` returns normally
having printed `failed signInWithPassword(). Reason `, the text of `e` and a newline. -/
theorem transport_failure_is_returned_unchanged (env : Env) (e : GoError)
    (hfail :
      env.Do (sentRequest env.apiKey ⟨env.email, env.password, true⟩) = Except.error e ∨
      (∃ resp data,
        env.Do (sentRequest env.apiKey ⟨env.email, env.password, true⟩) = Except.ok resp ∧
        resp.Body.ReadAll = (data, some e)) ∨
      (∃ resp data,
        env.Do (sentRequest env.apiKey ⟨env.email, env.password, true⟩) = Except.ok resp ∧
        resp.Body.ReadAll = (data, none) ∧ resp.Body.Close = some e)) :
    signInWithPassword env ⟨env.email, env.password, true⟩ = (none, some e) ∧
    main env = Outcome.exit
      (ascii "failed signInWithPassword(). Reason " ++ e.Error env.libText ++ ascii "\n") := by
  have h : signInWithPassword env ⟨env.email, env.password, true⟩ = (none, some e) := by
    rcases hfail with hdo | ⟨resp, data, hdo, hread⟩ | ⟨resp, data, hdo, hread, hclose⟩
    · exact signInWithPassword_of_send_error env _ e hdo
    · rw [signInWithPassword_of_response env _ resp hdo]
      unfold readResponse
      rw [hread]
    · rw [signInWithPassword_of_response env _ resp hdo]
      unfold readResponse
      rw [hread]; dsimp only
      rw [hclose]
  exact ⟨h, main_of_error env e h⟩

/-- C8, on an unreachable host. -/
theorem transport_failure_is_returned_unchanged_witness :
    signInWithPassword
        (unreachableEnv (ascii "K") (ascii "a@b.com") (ascii "pw")
          (GoError.external (ascii "dial tcp: no such host")))
        ⟨ascii "a@b.com", ascii "pw", true⟩
      = (none, some (GoError.external (ascii "dial tcp: no such host"))) ∧
    main (unreachableEnv (ascii "K") (ascii "a@b.com") (ascii "pw")
          (GoError.external (ascii "dial tcp: no such host")))
      = Outcome.exit (ascii "failed signInWithPassword(). Reason dial tcp: no such host\n") :=
  transport_failure_is_returned_unchanged
    (unreachableEnv (ascii "K") (ascii "a@b.com") (ascii "pw")
      (GoError.external (ascii "dial tcp: no such host")))
    (GoError.external (ascii "dial tcp: no such host")) (Or.inl rfl)

/-- C9: whatever the input and the outcome of the network call, `signInWithPassword`
returns exactly one of a payload and an error: the payload is non-nil if and only if the
error is nil. -/
theorem payload_iff_no_error (env : Env) (input : signInWithPasswordInput) :
    ((signInWithPassword env input).1 ≠ none ↔ (signInWithPassword env input).2 = none) ∧
    ((∃ p, signInWithPassword env input = (some p, none)) ∨
     (∃ e, signInWithPassword env input = (none, some e))) := by
  refine ⟨?_, signInWithPassword_cases env input⟩
  rcases signInWithPassword_cases env input with ⟨p, h⟩ | ⟨e, h⟩ <;> rw [h] <;> simp

/-- C10: standard output tells success from failure. `main` always returns normally; what
it printed starts with `Bearer ` exactly when `signInWithPassword` returned no error and
starts with `failed signInWithPassword(). Reason ` exactly when it returned one; an
output never starts with both. -/
theorem output_prefix_tells_success_from_failure (env : Env) :
    ∃ out, main env = Outcome.exit out ∧
      startsWith out (ascii "Bearer ")
        = (signInWithPassword env ⟨env.email, env.password, true⟩).2.isNone ∧
      startsWith out (ascii "failed signInWithPassword(). Reason ")
        = (signInWithPassword env ⟨env.email, env.password, true⟩).2.isSome ∧
      startsWith out (ascii "failed") = !startsWith out (ascii "Bearer ") := by
  rcases signInWithPassword_cases env ⟨env.email, env.password, true⟩ with ⟨p, h⟩ | ⟨e, h⟩
  · exact ⟨_, main_of_payload env p h, by rw [h]; rfl, by rw [h]; rfl, rfl⟩
  · exact ⟨_, main_of_error env e h, by rw [h]; rfl, by rw [h]; rfl, rfl⟩

/-! ## The claims about the request -/

/-- C5: whatever the email, the password and the API key, the one request that the
program hands to `client.Do` has a query string that decodes (`url.ParseQuery`) without
error to exactly one parameter, named `key`, with exactly one value, the API key; and
its body is a JSON object whose member `returnSecureToken` is the boolean `true`. -/
theorem request_carries_key_and_secure_token_flag (env : Env) :
    ∃ req, buildRequest env.apiKey ⟨env.email, env.password, true⟩ = Except.ok req ∧
      (signInWithPassword env ⟨env.email, env.password, true⟩ =
        match env.Do req with
        | Except.error err => (none, some err)
        | Except.ok resp => readResponse resp) ∧
      ParseQuery req.URL.RawQuery = ([(ascii "key", [env.apiKey])], false) ∧
      req.URL.Query = [(ascii "key", [env.apiKey])] ∧
      ∃ e p, jsonParse req.Body = some (JValue.object
        [(ascii "email", JValue.string e), (ascii "password", JValue.string p),
         (ascii "returnSecureToken", JValue.bool true)]) := by
  refine ⟨_, buildRequest_eq env.apiKey _, signInWithPassword_eq_send env _,
    ParseQuery_key env.apiKey, ?_, _, _, jsonParse_jsonMarshal ⟨env.email, env.password, true⟩⟩
  show (ParseQuery (ascii "key=" ++ QueryEscape env.apiKey)).1 = _
  rw [ParseQuery_key]

/-- C6 fails as stated: for the API key `a b` the URL of the request ends in `?key=a+b`,
which is not the endpoint followed by `?key=` and the API key. -/
theorem url_of_key_with_space_is_escaped :
    (buildRequest (ascii "a b") ⟨ascii "a@b.com", ascii "pw", true⟩).toOption.map
        (fun req => req.URL.String)
      = some (authAPIEndpoint ++ ascii "?key=a+b") ∧
    authAPIEndpoint ++ ascii "?key=a+b" ≠ authAPIEndpoint ++ ascii "?key=" ++ ascii "a b" := by
  constructor
  · rfl
  · decide

/-- C6 as amended: whatever the email, the password and the API key, the request has
method `POST`, the header `Content-Type: application/json` and no other header, and its
URL is the endpoint followed by `?key=` and the API key escaped as a query component
(`url.QueryEscape`); when the API key consists of letters, digits, `-`, `_`, `.` and `~`
only, that is the API key itself. -/
theorem request_method_header_and_url (apiKey : Bytes) (input : signInWithPasswordInput) :
    ∃ req, buildRequest apiKey input = Except.ok req ∧
      req.Method = ascii "POST" ∧
      req.Header = [(ascii "Content-Type", [ascii "application/json"])] ∧
      req.Header.Values (ascii "content-type") = [ascii "application/json"] ∧
      req.URL.String = authAPIEndpoint ++ ascii "?key=" ++ QueryEscape apiKey ∧
      (apiKey.all (fun c => isAlnum c || (ascii "-_.~").contains c) = true →
        req.URL.String = authAPIEndpoint ++ ascii "?key=" ++ apiKey) := by
  refine ⟨_, buildRequest_eq apiKey input, rfl, rfl, rfl, rfl, ?_⟩
  intro h
  have hq : QueryEscape apiKey = apiKey := by
    apply QueryEscape_of_unreserved
    rw [List.all_eq_true] at h ⊢
    intro c hc
    have hc' := h c hc
    have hbyte : ∀ b : Byte, (isAlnum b || (ascii "-_.~").contains b) = true →
        (!shouldEscape b encoding.encodeQueryComponent) = true := by decide
    exact hbyte c hc'
  show authAPIEndpoint ++ ascii "?key=" ++ QueryEscape apiKey = _
  rw [hq]

/-- C6 as amended, on the API key `K` of the example of the specification. -/
theorem request_method_header_and_url_witness :
    (ascii "K").all (fun c => isAlnum c || (ascii "-_.~").contains c) = true ∧
    ∃ req, buildRequest (ascii "K") ⟨ascii "a@b.com", ascii "pw", true⟩ = Except.ok req ∧
      req.Method = ascii "POST" ∧
      req.Header = [(ascii "Content-Type", [ascii "application/json"])] ∧
      req.Header.Values (ascii "content-type") = [ascii "application/json"] ∧
      req.URL.String = authAPIEndpoint ++ ascii "?key=" ++ QueryEscape (ascii "K") ∧
      ((ascii "K").all (fun c => isAlnum c || (ascii "-_.~").contains c) = true →
        req.URL.String = authAPIEndpoint ++ ascii "?key=" ++ ascii "K") :=
  ⟨by decide, request_method_header_and_url (ascii "K") ⟨ascii "a@b.com", ascii "pw", true⟩⟩

/-- C7 fails as stated: the email consisting of the single byte `0xFF` (not valid UTF-8)
is written as `\ufffd`, and decoding the body gives the three bytes of U+FFFD, not the
email that was passed in. -/
theorem invalid_utf8_email_is_not_read_back :
    (buildRequest (ascii "K") ⟨[0xFF], ascii "pw", true⟩).toOption.map (fun req => req.Body)
      = some (ascii "\x7b\"email\":\"\\ufffd\",\"password\":\"pw\",\"returnSecureToken\":true\x7d") ∧
    jsonParse (ascii "\x7b\"email\":\"\\ufffd\",\"password\":\"pw\",\"returnSecureToken\":true\x7d")
      = some (JValue.object
        [(ascii "email", JValue.string [0xEF, 0xBF, 0xBD]),
         (ascii "password", JValue.string (ascii "pw")),
         (ascii "returnSecureToken", JValue.bool true)]) ∧
    ([0xEF, 0xBF, 0xBD] : Bytes) ≠ [0xFF] := by
  refine ⟨rfl, rfl, by decide⟩

/-- C7 as amended: for every email and password that are valid UTF-8 (empty strings,
quotes, backslashes, control characters and `<`, `>`, `&` included), the request body is
a JSON object with exactly the three members `email`, `password` and
`returnSecureToken`, and the strings read from it are the email and the password that
were passed in. -/
theorem request_body_round_trips_valid_utf8 (apiKey : Bytes)
    (input : signInWithPasswordInput)
    (hEmail : ValidString input.Email = true) (hPassword : ValidString input.Password = true) :
    ∃ req, buildRequest apiKey input = Except.ok req ∧
      jsonParse req.Body = some (JValue.object
        [(ascii "email", JValue.string input.Email),
         (ascii "password", JValue.string input.Password),
         (ascii "returnSecureToken", JValue.bool input.ReturnSecureToken)]) := by
  refine ⟨_, buildRequest_eq apiKey input, ?_⟩
  show jsonParse (jsonMarshal input).1 = _
  rw [jsonParse_jsonMarshal, coerceUTF8_of_valid _ hEmail, coerceUTF8_of_valid _ hPassword]

/-- C7 as amended, on an email with a quote, a backslash, `<`, `>`, `&`, a control
character and a two-byte rune, and on the empty password. -/
theorem request_body_round_trips_valid_utf8_witness :
    ValidString (ascii "a\"\\<>&\n" ++ [0xC3, 0xA9]) = true ∧ ValidString [] = true ∧
    ∃ req, buildRequest (ascii "K") ⟨ascii "a\"\\<>&\n" ++ [0xC3, 0xA9], [], true⟩ = Except.ok req ∧
      jsonParse req.Body = some (JValue.object
        [(ascii "email", JValue.string (ascii "a\"\\<>&\n" ++ [0xC3, 0xA9])),
         (ascii "password", JValue.string []),
         (ascii "returnSecureToken", JValue.bool true)]) :=
  ⟨by decide, by decide,
   request_body_round_trips_valid_utf8 (ascii "K") ⟨ascii "a\"\\<>&\n" ++ [0xC3, 0xA9], [], true⟩
     (by decide) (by decide)⟩

end ArmyKnife
